import Mathlib

/-!
Verification of the pb2q operator-application engine
(`pb2q/sympy/apply_op.py`, `pb2q/sympy/product_state.py`,
`pb2q/sympy/product_qexpr.py`, `pb2q/sympy/product_operator.py`,
`pb2q/operators/symm.py`, `pb2q/operators/particle.py`).

The Python code is a rewrite system over sympy expressions.  We embed the
fragment of the sympy expression algebra that the engine manipulates as an
inductive type `Expr`, together with the canonicalising constructors that
model sympy's `Mul`, `Add`, `Pow` and `TensorProduct` class constructors on
this fragment, and then translate the engine functions (`apply_op`,
`apply_op_Mul`, `ProductKet._eval_innerproduct`, `ProductState.__new__`,
`ParticleSwap`, `StepSymmetrizer`, `PresenceProjection`, ...) line by line.

Modelling conventions:
* sympy `Number` scalars are rationals (`num q`).
* `rad n e` is the commutative irrational factor `n^(e/2)` (sympy keeps
  `sqrt(n)` as an unevaluated commutative `Pow`); products of radicals are
  kept opaque (never multiplied out) since no engine path relies on that.
* `aket l` / `abra l` model `ParticleKet` / `ParticleBra` with the nested
  (momentum, quantum-number) labels collapsed into one opaque label; its
  inner product (label equality, `None` when a label is symbolic) reproduces
  the observable behaviour of the nested orthogonal-label comparison.
* `pket` / `pbra` / `pop` model `FieldKet` / `FieldBra` / `FieldOperator`
  (the `ProductKet` / `ProductBra` / `ProductOperator` concrete subclasses);
  `tp` is a plain sympy `TensorProduct`.
* Python exceptions that the engine does not catch (`ValueError`,
  `IndexError`, `TypeError`) are `Except.error (.msg ...)`; the engine's
  possible non-termination is made explicit by a fuel parameter, with
  exhaustion reported as `Except.error .fuel`.
* keyword options of `apply_op` are fixed at their defaults
  (`dagger=False`, `ip_doit=True`); `rec_depth` only affects logging.
-/

/-- Label of a particle-level basis state: the null state `Omega`,
a concrete (momentum : quantum number) label collapsed to a `Nat`,
or a symbolic label (inner products with it are indeterminate). -/
inductive ALabel where
  | null
  | lbl (n : Nat)
  | sym (n : Nat)
deriving DecidableEq, Repr

/-- Exponent of a sympy `Pow`: an integer, or an opaque symbolic exponent
(for which `exp.is_Integer` is false). -/
inductive PExp where
  | i (k : Int)
  | s (n : Nat)
deriving DecidableEq, Repr

/-- Engine failures: `fuel` marks a computation that did not finish within
the given fuel (the Python code has no such bound and would recurse
forever / overflow the stack), `msg` models an uncaught Python exception. -/
inductive PErr where
  | fuel
  | msg (s : String)
deriving DecidableEq, Repr

/-- The fragment of the sympy expression algebra manipulated by
`apply_op`.  Constructors mirror the sympy / pb2q classes:
`num` (Number), `rad` (unevaluated radical `n^(e/2)`), `aket`/`abra`
(ParticleKet/ParticleBra), `pket`/`pbra` (FieldKet/FieldBra),
`pop` (FieldOperator), `tp` (plain TensorProduct), `pswap` (ParticleSwap),
`pperm` (ParticlePermutation), `stepSym` (Step(Anti)Symmetrizer with
`sign` equal to `+1` or `-1` and updated particle number), `presProj`/`absProj`
(Presence/AbsenceProjection), `idOp` (IdentityOperator), `genOp` (an
opaque Operator with no capability methods), `add`/`mul`/`pow`
(Add/Mul/Pow), `inner` (InnerProduct), `outer` (OuterProduct). -/
inductive Expr where
  | num (q : ℚ)
  | rad (n : Nat) (e : Int)
  | aket (l : ALabel)
  | abra (l : ALabel)
  | pket (cs : List Expr)
  | pbra (cs : List Expr)
  | pop (cs : List Expr)
  | tp (cs : List Expr)
  | pswap (i j : Nat)
  | pperm (ps : List Nat)
  | stepSym (sign : Int) (n : Nat)
  | presProj
  | absProj
  | idOp
  | genOp (n : Nat)
  | add (ts : List Expr)
  | mul (fs : List Expr)
  | pow (b : Expr) (e : PExp)
  | inner (b k : Expr)
  | outer (k b : Expr)

namespace Pb2q

mutual

/-- Boolean equality on `Expr` (structural, as sympy's `==` on these
immutable trees), together with its list version. -/
def beqE : Expr → Expr → Bool
  | .num a, b => match b with | .num c => a == c | _ => false
  | .rad n e, b => match b with | .rad m f => n == m && e == f | _ => false
  | .aket a, b => match b with | .aket c => a == c | _ => false
  | .abra a, b => match b with | .abra c => a == c | _ => false
  | .pket as, b => match b with | .pket bs => beqL as bs | _ => false
  | .pbra as, b => match b with | .pbra bs => beqL as bs | _ => false
  | .pop as, b => match b with | .pop bs => beqL as bs | _ => false
  | .tp as, b => match b with | .tp bs => beqL as bs | _ => false
  | .pswap i j, b => match b with | .pswap k l => i == k && j == l | _ => false
  | .pperm ps, b => match b with | .pperm qs => ps == qs | _ => false
  | .stepSym s n, b => match b with | .stepSym t m => s == t && n == m | _ => false
  | .presProj, b => match b with | .presProj => true | _ => false
  | .absProj, b => match b with | .absProj => true | _ => false
  | .idOp, b => match b with | .idOp => true | _ => false
  | .genOp a, b => match b with | .genOp c => a == c | _ => false
  | .add as, b => match b with | .add bs => beqL as bs | _ => false
  | .mul as, b => match b with | .mul bs => beqL as bs | _ => false
  | .pow a e, b => match b with | .pow c f => beqE a c && e == f | _ => false
  | .inner a b, c => match c with | .inner d e => beqE a d && beqE b e | _ => false
  | .outer a b, c => match c with | .outer d e => beqE a d && beqE b e | _ => false

/-- List version of `beqE`. -/
def beqL : List Expr → List Expr → Bool
  | [], [] => true
  | a :: as, b :: bs => beqE a b && beqL as bs
  | _, _ => false

end

mutual

/-- Structural size of an expression (used for strong induction over the
nested `Expr` type). -/
def sizeE : Expr → Nat
  | .pket cs => sizeL cs + 1
  | .pbra cs => sizeL cs + 1
  | .pop cs => sizeL cs + 1
  | .tp cs => sizeL cs + 1
  | .add cs => sizeL cs + 1
  | .mul cs => sizeL cs + 1
  | .pow b _ => sizeE b + 1
  | .inner a b => sizeE a + sizeE b + 1
  | .outer a b => sizeE a + sizeE b + 1
  | _ => 1

/-- Structural size of a list of expressions. -/
def sizeL : List Expr → Nat
  | [] => 0
  | e :: es => sizeE e + sizeL es + 1

end

theorem one_le_sizeE : ∀ a : Expr, 1 ≤ sizeE a := by
  intro a; cases a <;> simp [sizeE]

theorem beq_spec : ∀ n : Nat,
    (∀ a b : Expr, sizeE a ≤ n → (beqE a b = true ↔ a = b)) ∧
    (∀ as bs : List Expr, sizeL as ≤ n → (beqL as bs = true ↔ as = bs)) := by
  intro n
  induction n with
  | zero =>
    constructor
    · intro a _ h; exact absurd (le_trans (one_le_sizeE a) h) (by omega)
    · intro as bs h
      cases as with
      | nil => cases bs <;> simp [beqL]
      | cons x xs =>
        exfalso; have := one_le_sizeE x; simp [sizeL] at h
  | succ n ih =>
    constructor
    · intro a b ha
      cases a <;> cases b <;>
        simp only [beqE, sizeE, Bool.and_eq_true, beq_iff_eq, List.cons.injEq,
          reduceCtorEq, Expr.pket.injEq, Expr.pbra.injEq, Expr.pop.injEq,
          Expr.tp.injEq, Expr.add.injEq, Expr.mul.injEq, Expr.pow.injEq,
          Expr.inner.injEq, Expr.outer.injEq, Expr.num.injEq, Expr.rad.injEq,
          Expr.aket.injEq, Expr.abra.injEq, Expr.pswap.injEq, Expr.pperm.injEq,
          Expr.stepSym.injEq, Expr.genOp.injEq] at ha ⊢ <;>
        try rfl
      case pket.pket as bs => exact ih.2 as bs (by omega)
      case pbra.pbra as bs => exact ih.2 as bs (by omega)
      case pop.pop as bs => exact ih.2 as bs (by omega)
      case tp.tp as bs => exact ih.2 as bs (by omega)
      case add.add as bs => exact ih.2 as bs (by omega)
      case mul.mul as bs => exact ih.2 as bs (by omega)
      case pow.pow xb xe yb ye =>
        rw [ih.1 xb yb (by omega)]
      case inner.inner xa xb ya yb =>
        rw [ih.1 xa ya (by omega), ih.1 xb yb (by omega)]
      case outer.outer xa xb ya yb =>
        rw [ih.1 xa ya (by omega), ih.1 xb yb (by omega)]
    · intro as bs ha
      cases as with
      | nil => cases bs <;> simp [beqL]
      | cons x xs =>
        cases bs with
        | nil => simp [beqL]
        | cons y ys =>
          simp only [sizeL] at ha
          simp only [beqL, Bool.and_eq_true, List.cons.injEq]
          rw [ih.1 x y (by omega), ih.2 xs ys (by omega)]

theorem beqE_iff (a b : Expr) : beqE a b = true ↔ a = b :=
  (beq_spec (sizeE a)).1 a b (le_refl _)

instance : DecidableEq Expr := fun a b =>
  decidable_of_iff (beqE a b = true) (beqE_iff a b)

theorem beqE_self (a : Expr) : beqE a a = true := (beqE_iff a a).mpr rfl

theorem beqE_false_iff (a b : Expr) : beqE a b = false ↔ a ≠ b := by
  constructor
  · intro h he; subst he; rw [beqE_self] at h; cases h
  · intro h
    cases hb : beqE a b
    · rfl
    · exact absurd ((beqE_iff a b).mp hb) h

open Expr

mutual

/-- sympy `is_commutative` on the fragment: numbers, radicals and inner
products are commutative scalars; states, operators and outer products are
not; `Add`/`Mul`/`TensorProduct` are commutative iff all arguments are,
`Pow` iff its base is. -/
def isComm : Expr → Bool
  | .num _ => true
  | .rad _ _ => true
  | .inner _ _ => true
  | .add ts => isCommL ts
  | .mul fs => isCommL fs
  | .tp cs => isCommL cs
  | .pow b _ => isComm b
  | _ => false

/-- List version of `isComm` (all members commutative). -/
def isCommL : List Expr → Bool
  | [] => true
  | e :: es => isComm e && isCommL es

end

/-- `isinstance(e, KetBase)`: particle kets and product kets. -/
def isKetBase : Expr → Bool
  | .aket _ => true
  | .pket _ => true
  | _ => false

/-- `isinstance(e, BraBase)`: particle bras and product bras. -/
def isBraBase : Expr → Bool
  | .abra _ => true
  | .pbra _ => true
  | _ => false

/-- `isinstance(e, State)`: kets and bras of either level. -/
def isState (e : Expr) : Bool := isKetBase e || isBraBase e

/-- `isinstance(e, Operator)`: all operator atoms, product operators and
outer products (sympy's `OuterProduct` is an `Operator`). -/
def isOperator : Expr → Bool
  | .pswap _ _ => true
  | .pperm _ => true
  | .stepSym _ _ => true
  | .presProj => true
  | .absProj => true
  | .idOp => true
  | .genOp _ => true
  | .pop _ => true
  | .outer _ _ => true
  | _ => false

/-- `isinstance(e, TensorProduct)`: the plain tensor product and the
`Product*` subclasses (which all inherit from `TensorProduct`). -/
def isTensorP : Expr → Bool
  | .tp _ => true
  | .pket _ => true
  | .pbra _ => true
  | .pop _ => true
  | _ => false

/-- `isinstance(e, Number)`. -/
def isNumber : Expr → Bool
  | .num _ => true
  | _ => false

/-- `isinstance(e, Mul)`. -/
def isMulNode : Expr → Bool
  | .mul _ => true
  | _ => false

/-- `isinstance(e, InnerProduct)`. -/
def isInnerNode : Expr → Bool
  | .inner _ _ => true
  | _ => false

/-- Arguments contributed by a factor to a flat `Mul` (sympy `Mul.flatten`
absorbs nested `Mul` arguments). -/
def mulArgsOf : Expr → List Expr
  | .mul fs => fs
  | e => [e]

/-- Terms contributed by a summand to a flat `Add`. -/
def addArgsOf : Expr → List Expr
  | .add ts => ts
  | e => [e]

/-- Base and exponent of a factor (`x` reads as `x ** 1`). -/
def baseExpOf : Expr → Expr × PExp
  | .pow b k => (b, k)
  | e => (e, .i 1)

/-- sympy `Pow(b, k)` constructor on the fragment: `b**0 = 1`, `b**1 = b`,
rational powers of `Number`s, and the `_eval_power` auto-evaluations of
the pb2q operator classes: `ParticleSwap` (hermitian and unitary, so an
even power is the identity -- the repo's `_eval_power` override converts
sympy's `1` to `IdentityOperator` -- an odd power other than `-1` is the
operator itself, and `-1` stays unevaluated), `Projection` (a positive
integer power is the projector itself), `IdentityOperator`, and
`StepSymmetrizerBase` (`Pow(sqrt(n), exp-1) * self`). -/
def mkPow (b : Expr) (k : PExp) : Expr :=
  match k with
  | .s _ => pow b k
  | .i m =>
    if m == 0 then num 1
    else if m == 1 then b
    else match b with
    | num q => if q == 0 then (if 0 < m then num 0 else pow b k) else num (q ^ m)
    | pswap i j =>
        if m % 2 == 0 then idOp
        else if m == -1 then pow b k else pswap i j
    | presProj => if 0 < m then presProj else pow b k
    | absProj => if 0 < m then absProj else pow b k
    | idOp => idOp
    | stepSym sg nn => mul [rad nn (m - 1), stepSym sg nn]
    | _ => pow b k

/-- One step of sympy `Mul.flatten`'s merging of adjacent equal-base
non-commutative factors (`A * A**k = A**(k+1)`); `acc` is the reversed
already-merged prefix. -/
def mergeStep (acc : List Expr) (x : Expr) : List Expr :=
  match acc with
  | [] => [x]
  | y :: rest =>
    let p := baseExpOf y
    let q := baseExpOf x
    if beqE p.1 q.1 then
      match p.2, q.2 with
      | .i a, .i c =>
          let m := mkPow p.1 (.i (a + c))
          if beqE m (num 1) then rest else m :: rest
      | _, _ => x :: y :: rest
    else x :: y :: rest

/-- Adjacent-equal-base merging over a factor list. -/
def mergeAdj (xs : List Expr) : List Expr := (xs.foldl mergeStep []).reverse

/-- sympy `Mul(*args)` on the fragment: flattens nested `Mul`s, multiplies
`Number` factors into one rational coefficient, keeps the remaining
commutative factors (radicals, inner products) in order, merges adjacent
equal-base non-commutative factors into powers, absorbs a zero
coefficient, and collapses the empty and the singleton product.  The
canonical layout is `[num coeff] ++ commutative ++ non-commutative`.
(Not modelled, because no engine path exercised by the claims relies on
them: multiplying radicals out, and distributing a rational coefficient
over an `Add`.) -/
def mkMul (args : List Expr) : Expr :=
  let flat := args.flatMap mulArgsOf
  let nc0 := flat.filter (fun a => !isComm a)
  let merged := (mergeAdj nc0).flatMap mulArgsOf
  let cPart := flat.filter isComm ++ merged.filter isComm
  let nc := merged.filter (fun a => !isComm a)
  let coeff : ℚ := cPart.foldl (fun q a => match a with | num r => q * r | _ => q) 1
  let cRest := cPart.filter (fun a => !isNumber a)
  if coeff == 0 then num 0
  else
    let parts := (if coeff == 1 then [] else [num coeff]) ++ cRest ++ nc
    match parts with
    | [] => num 1
    | [x] => x
    | _ => mul parts

/-- Coefficient/rest split of an `Add` term (sympy collects terms by their
non-`Number` part, summing rational coefficients). -/
def coeffSplit : Expr → ℚ × Expr
  | num q => (q, num 1)
  | mul (num q :: rest) => (q, match rest with | [x] => x | _ => mul rest)
  | e => (1, e)

/-- Insert a (term-rest, coefficient) pair into the collection list,
summing coefficients of equal rests, keeping first-occurrence order. -/
def addInsert (acc : List (Expr × ℚ)) (k : Expr) (q : ℚ) : List (Expr × ℚ) :=
  match acc with
  | [] => [(k, q)]
  | p :: rest => if beqE p.1 k then (p.1, p.2 + q) :: rest else p :: addInsert rest k q

/-- sympy `Add(*args)` on the fragment: flattens nested `Add`s, drops
zeros, collects terms with an equal non-`Number` part by summing their
rational coefficients, drops terms whose coefficient cancels to zero, and
collapses the empty and the singleton sum. -/
def mkAdd (ts : List Expr) : Expr :=
  let flat := (ts.flatMap addArgsOf).filter (fun t => !(beqE t (num 0)))
  let collected := flat.foldl (fun acc t => let p := coeffSplit t; addInsert acc p.2 p.1) []
  let terms := collected.filterMap (fun p =>
    if p.2 == 0 then none
    else if beqE p.1 (num 1) then some (num p.2)
    else if p.2 == 1 then some p.1
    else some (mkMul [num p.2, p.1]))
  match terms with
  | [] => num 0
  | [t] => t
  | _ => add terms

/-- `Expr.args_cnc()` (with `cset=False`): the commutative and the
non-commutative part of an expression, as lists. -/
def argsCnc (e : Expr) : List Expr × List Expr :=
  match e with
  | mul fs => (fs.filter isComm, fs.filter (fun a => !isComm a))
  | _ => if isComm e then ([e], []) else ([], [e])

/-- `ProductState._check_components` (product_state.py lines 23-47, also
`ProductOperator._check_components`): an `Add` argument must have every
term (or, for a `Mul` term, every factor of its non-commutative part) in
the component class `chk`; a `Mul` argument must have every
non-commutative part of every factor in `chk`; any other argument must
itself satisfy `chk`. -/
def checkComponents (chk : Expr → Bool) (args : List Expr) : Bool :=
  args.all fun arg =>
    match arg with
    | add ts => ts.all fun term =>
        match term with
        | mul _ => (argsCnc term).2.all chk
        | _ => chk term
    | mul fs => fs.all fun fact => (argsCnc fact).2.all chk
    | _ => chk arg

/-- `ProductState.__new__` (product_state.py lines 13-21): a component
equal to `0` collapses the whole product state to the scalar zero (before
the component check); an invalid component raises a `ValueError`. -/
def productStateNew (chk : Expr → Bool) (node : List Expr → Expr) (args : List Expr) :
    Except PErr Expr :=
  if args.any (fun a => beqE a (num 0)) then .ok (num 0)
  else if checkComponents chk args then .ok (node args)
  else .error (.msg "ProductState components must be of the component class")

/-- `ProductQExpr.__new__` (product_qexpr.py lines 12-20): textually the
same construction as `ProductState.__new__`. -/
def productQExprNew (chk : Expr → Bool) (node : List Expr → Expr) (args : List Expr) :
    Except PErr Expr :=
  if args.any (fun a => beqE a (num 0)) then .ok (num 0)
  else if checkComponents chk args then .ok (node args)
  else .error (.msg "ProductQExpr components must be of the component class")

/-- `ProductOperator.__new__` (product_operator.py lines 10-13): component
check only -- it has NO zero absorption. -/
def productOperatorNew (chk : Expr → Bool) (node : List Expr → Expr) (args : List Expr) :
    Except PErr Expr :=
  if checkComponents chk args then .ok (node args)
  else .error (.msg "ProductOperator must be a product of Operators")

/-- `isinstance(e, ParticleKet)`. -/
def isParticleKet : Expr → Bool
  | .aket _ => true
  | _ => false

/-- `isinstance(e, ParticleBra)`. -/
def isParticleBra : Expr → Bool
  | .abra _ => true
  | _ => false

/-- `FieldKet(*args)` (states.py: `component_class = ParticleKet`). -/
def mkFieldKet : List Expr → Except PErr Expr := productStateNew isParticleKet pket

/-- `FieldBra(*args)` (states.py: `component_class = ParticleBra`). -/
def mkFieldBra : List Expr → Except PErr Expr := productStateNew isParticleBra pbra

/-- `FieldOperator(*args)` (a `ProductOperator` of `Operator` components). -/
def mkFieldOp : List Expr → Except PErr Expr := productOperatorNew isOperator pop

/-- Plain `TensorProduct(*args)`: `TensorProduct.flatten` pulls the
commutative part of every slot out in front, keeps the non-commutative
slot parts (an all-commutative slot becomes `1`), and the nullary and
unary tensor products collapse. -/
def mkTP (slots : List Expr) : Expr :=
  let parts := slots.map argsCnc
  let c := parts.flatMap Prod.fst
  let ncS := parts.map (fun p => mkMul p.2)
  match ncS with
  | [] => mkMul c
  | [x] => mkMul (c ++ [x])
  | _ => if c.isEmpty then tp ncS else mkMul (c ++ [tp ncS])

/-- Slots of a `TensorProduct` instance (`e.args`). -/
def tpArgsOf : Expr → List Expr
  | .tp cs => cs
  | .pket cs => cs
  | .pbra cs => cs
  | .pop cs => cs
  | _ => []

/-- `rhs.func(*args)` for the tensor-product classes: rebuilding through
the class constructor re-runs its validation. -/
def tpFunc (rhs : Expr) : List Expr → Except PErr Expr :=
  match rhs with
  | .pket _ => mkFieldKet
  | .pbra _ => mkFieldBra
  | .pop _ => mkFieldOp
  | _ => fun xs => .ok (mkTP xs)

/-- All distributed choices of one `Add` term per factor, in sympy's
left-major expansion order (`(a+b)*(c+d) = ac+ad+bc+bd`). -/
def crossTerms : List Expr → List (List Expr)
  | [] => [[]]
  | f :: rest => (addArgsOf f).flatMap (fun t => (crossTerms rest).map (t :: ·))

/-- Distribute `Add` components of a tensor-product-like node and rebuild
each choice through the node's constructor
(`_eval_expand_tensorproduct`, product_state.py lines 66-83). -/
def distribTP (cs : List Expr) (mk : List Expr → Except PErr Expr) : Except PErr Expr := do
  let terms ← (crossTerms cs).mapM mk
  .ok (mkAdd terms)

mutual

/-- `e.expand(commutator=True, tensorproduct=True)` on the fragment (the
unnamed hints keep their sympy defaults, so `mul` and `multinomial`
expansion are active as well): recursively distributes products over sums,
expands positive integer powers of sums, and distributes `Add` components
of tensor-product nodes (rebuilding through the class constructors).
There are no commutator nodes in the fragment. -/
def expandE : Expr → Except PErr Expr
  | .add ts => do
      let ts' ← expandL ts
      .ok (mkAdd ts')
  | .mul fs => do
      let fs' ← expandL fs
      .ok (mkAdd ((crossTerms fs').map mkMul))
  | .pow b k => do
      let b' ← expandE b
      match b', k with
      | .add ts, .i m =>
          if 2 ≤ m then
            .ok (mkAdd ((crossTerms (List.replicate m.toNat (add ts))).map mkMul))
          else if beqE b' b then .ok (pow b k) else .ok (mkPow (add ts) k)
      | b', _ =>
          -- sympy's expand only rebuilds a node when its arguments changed,
          -- so an unevaluated Pow whose base the expansion leaves alone
          -- survives (no re-run of the `Pow` constructor).
          if beqE b' b then .ok (pow b k) else .ok (mkPow b' k)
  | .pket cs => do distribTP (← expandL cs) mkFieldKet
  | .pbra cs => do distribTP (← expandL cs) mkFieldBra
  | .pop cs => do distribTP (← expandL cs) mkFieldOp
  | .tp cs => do distribTP (← expandL cs) (fun xs => .ok (mkTP xs))
  | .outer k b => do .ok (outer (← expandE k) (← expandE b))
  | .inner b k => do .ok (inner (← expandE b) (← expandE k))
  | e => .ok e

/-- List version of `expandE`. -/
def expandL : List Expr → Except PErr (List Expr)
  | [] => .ok []
  | e :: es => do .ok ((← expandE e) :: (← expandL es))

end

mutual

/-- `ket._eval_innerproduct(bra)`.  For a `ProductKet`
(product_state.py lines 95-111): a component count mismatch raises
`ValueError`, otherwise the components are compared left to right.  For a
`ParticleKet` (states.py lines 221-231, with the nested momentum and
quantum-number labels collapsed into `ALabel`): the null-state checks,
then label comparison, indeterminate (`None`) on a symbolic label.
All other combinations return sympy's default `None`. -/
def eval_innerproduct : Expr → Expr → Except PErr (Option Expr)
  | .pket ks, bra =>
      match bra with
      | .pbra bs =>
          if bs.length != ks.length then
            .error (.msg "Cannot multiply a product ket that has a different number of components.")
          else innerLoop ks bs
      | _ => .ok none
  | .aket l, bra =>
      match bra with
      | .abra m =>
          match l, m with
          | .null, .null => .ok (some (num 1))
          | .null, _ => .ok (some (num 0))
          | _, .null => .ok (some (num 0))
          | .lbl a, .lbl b => .ok (some (if a == b then num 1 else num 0))
          | _, _ => .ok none
      | _ => .ok none
  | _, _ => .ok none

/-- The component loop of `ProductKet._eval_innerproduct` (lines 102-109):
first indeterminate component wins, else first zero component wins, else
the result is exactly `1`. -/
def innerLoop : List Expr → List Expr → Except PErr (Option Expr)
  | [], _ => .ok (some (num 1))
  | k :: ks, b :: bs => do
      match ← eval_innerproduct k b with
      | none => .ok none
      | some r => if beqE r (num 0) then .ok (some (num 0)) else innerLoop ks bs
  | _, [] => .ok (some (num 1))

end

/-- The component loop of `ProductKet._eval_innerproduct`
(product_state.py lines 102-109) parameterized by the component-level
capability `f arg bra_arg = arg._eval_innerproduct(bra_arg)` (a dynamic
dispatch on the component classes): first indeterminate component wins,
else first zero component wins, else the result is exactly `1`
(whatever the non-zero component values were). -/
def innerprodLoopF (f : Expr → Expr → Except PErr (Option Expr)) :
    List Expr → List Expr → Except PErr (Option Expr)
  | [], _ => .ok (some (num 1))
  | k :: ks, b :: bs => do
      match ← f k b with
      | none => .ok none
      | some r => if beqE r (num 0) then .ok (some (num 0)) else innerprodLoopF f ks bs
  | _, [] => .ok (some (num 1))

/-- `InnerProduct(bra, ket).doit()`: evaluate via
`ket._eval_innerproduct(bra)`; an indeterminate result leaves the
`InnerProduct` node symbolic. -/
def ipDoit (b k : Expr) : Except PErr Expr := do
  match ← eval_innerproduct k b with
  | some r => .ok r
  | none => .ok (inner b k)

/-- Result of probing a capability method (`_apply_operator` /
`_apply_from_right_to`): `notimpl` models a raised `NotImplementedError`
or `AttributeError`, which `apply_op_Mul` catches and then tries the next
rule; `ret r` models a normal return.  A returned Python `None`
(`ret none`) is NOT an exception: it makes the pair non-interacting
without any further rule being tried. -/
inductive CapRes where
  | notimpl
  | ret (r : Option Expr)
deriving DecidableEq

/-- `isinstance(e, (FieldState, FieldOperator))`. -/
def isFieldSOp : Expr → Bool
  | .pket _ => true
  | .pbra _ => true
  | .pop _ => true
  | _ => false

/-- In-range swap of two list entries (Python tuple assignment
`xs[a], xs[b] = xs[b], xs[a]`; both indices are always in range at the
call sites that use this helper). -/
def listSwap (xs : List Nat) (a b : Nat) : List Nat :=
  match xs[a]?, xs[b]? with
  | some x, some y => (xs.set a y).set b x
  | _, _ => xs

/-- `ParticleSwap.swap_particles` (symm.py lines 108-117): swap two
component entries of a `FieldState` or `FieldOperator` and rebuild
through the class constructor (`state.func`); an out-of-range index is a
Python `IndexError`. -/
def swap_particles (state : Expr) (i j : Nat) : Except PErr Expr :=
  match state with
  | .pket cs =>
      match cs[i]?, cs[j]? with
      | some xi, some xj => mkFieldKet ((cs.set i xj).set j xi)
      | _, _ => .error (.msg "IndexError")
  | .pbra cs =>
      match cs[i]?, cs[j]? with
      | some xi, some xj => mkFieldBra ((cs.set i xj).set j xi)
      | _, _ => .error (.msg "IndexError")
  | .pop cs =>
      match cs[i]?, cs[j]? with
      | some xi, some xj => mkFieldOp ((cs.set i xj).set j xi)
      | _, _ => .error (.msg "IndexError")
  | _ => .error (.msg "IndexError")

/-- `ParticlePermutation.order_particles` (symm.py lines 53-66):
`[state.args[perm[i]] for i in range(len(perm))] + state.args[len(perm):]`
rebuilt through the class constructor. -/
def order_particles (state : Expr) (ps : List Nat) : Except PErr Expr := do
  let pick := fun (cs : List Expr) =>
    ps.mapM (fun p =>
      match cs[p]? with
      | some x => Except.ok x
      | none => Except.error (PErr.msg "IndexError"))
  match state with
  | .pket cs => do mkFieldKet ((← pick cs) ++ cs.drop ps.length)
  | .pbra cs => do mkFieldBra ((← pick cs) ++ cs.drop ps.length)
  | .pop cs => do mkFieldOp ((← pick cs) ++ cs.drop ps.length)
  | _ => .error (.msg "IndexError")

/-- `ParticlePermutation(*args)` (symm.py lines 23-30): the arguments must
form a set equal to `range(len(args))`; the identity permutation collapses
to `IdentityOperator`. -/
def mkPPerm (ps : List Nat) : Except PErr Expr :=
  if (List.range ps.length).all (fun i => ps.contains i) && ps.all (fun x => x < ps.length) then
    if ps == List.range ps.length then .ok idOp else .ok (pperm ps)
  else .error (.msg "ParticlePermutation requires a sequence of unique integers")

/-- `ParticleSwap._apply_operator_ParticleSwap` (symm.py lines 124-131):
equal index sets give the identity; otherwise the two transpositions are
composed into a `ParticlePermutation`. -/
def swapTimesSwap (i j k l : Nat) : Except PErr Expr :=
  if (k == i && l == j) || (k == j && l == i) then .ok idOp
  else
    let mx := max (max k l) (max i j)
    let idx0 := List.range (mx + 1)
    let idx1 := listSwap idx0 k l
    let idx2 := listSwap idx1 i j
    mkPPerm idx2

/-- `StepSymmetrizerBase._apply_operator` (symm.py lines 166-176) for a
`FieldState`/`FieldOperator` argument:
`(rhs + sign * swap(rhs, n-1, 0) + ... + sign * swap(rhs, n-1, n-2)) / sqrt(n)`. -/
def stepSymApply (sg : Int) (m : Nat) (rhs : Expr) : Except PErr Expr := do
  let swaps ← (List.range (m - 1)).mapM (fun ip => do
    let sw ← swap_particles rhs (m - 1) ip
    Except.ok (mkMul [num (sg : ℚ), sw]))
  .ok (mkMul [rad m (-1), mkAdd (rhs :: swaps)])

/-- `Projection._apply_operator_*` (particle.py lines 67-75 and the
`PresenceProjection`/`AbsenceProjection` cross rules, lines 104-117);
`pres` selects `PresenceProjection` (`projection = 1`). -/
def projOpApply (pres : Bool) (rhs : Expr) : Except PErr CapRes :=
  match rhs with
  | .aket l =>
      if l == .null then .ok (.ret (some (if pres then num 0 else rhs)))
      else .ok (.ret (some (if pres then rhs else num 0)))
  | .outer (.aket kl) (.abra _) =>
      if kl == .null then .ok (.ret (some (if pres then num 0 else rhs)))
      else .ok (.ret (some (if pres then rhs else num 0)))
  | .presProj => if pres then .ok .notimpl else .ok (.ret (some (num 0)))
  | .absProj => if pres then .ok (.ret (some (num 0))) else .ok .notimpl
  | _ => .ok .notimpl

/-- `lhs._apply_operator(rhs)` over the fragment's atom families;
`notimpl` models the `NotImplementedError`/`AttributeError` raised when
no matching capability exists. -/
def applyOperator (lhs rhs : Expr) : Except PErr CapRes :=
  match lhs with
  | .pswap i j =>
      if isFieldSOp rhs then do
        let r ← swap_particles rhs i j
        .ok (.ret (some r))
      else match rhs with
        | .pswap k l => do
            let r ← swapTimesSwap i j k l
            .ok (.ret (some r))
        | _ => .ok .notimpl
  | .pperm ps =>
      if isFieldSOp rhs then do
        let r ← order_particles rhs ps
        .ok (.ret (some r))
      else match rhs with
        | .pperm _ =>
            .error (.msg "TypeError: Integer is not subscriptable")
        | _ => .ok .notimpl
  | .stepSym sg m =>
      if isFieldSOp rhs then do
        let r ← stepSymApply sg m rhs
        .ok (.ret (some r))
      else .ok .notimpl
  | .presProj => projOpApply true rhs
  | .absProj => projOpApply false rhs
  | .idOp => .ok (.ret (some rhs))
  | .outer k b =>
      match b, rhs with
      | .pbra _, .pket _ => do
          let ip ← ipDoit b rhs
          .ok (.ret (some (mkMul [ip, k])))
      | .abra _, .aket _ => do
          let ip ← ipDoit b rhs
          .ok (.ret (some (mkMul [ip, k])))
      | .abra bl, .presProj =>
          .ok (.ret (some (if bl == ALabel.null then num 0 else outer k b)))
      | .abra bl, .absProj =>
          .ok (.ret (some (if bl == ALabel.null then outer k b else num 0)))
      | _, _ => .ok .notimpl
  | _ => .ok .notimpl

/-- `Projection._apply_from_right_to` (particle.py lines 77-87): accepts a
`ParticleBra` or a `ParticleOuterProduct` from the right; anything else
returns Python `None`. -/
def projFromRight (pres : Bool) (other : Expr) : Except PErr CapRes :=
  let braNull : Option Bool :=
    match other with
    | .abra l => some (l == .null)
    | .outer (.aket _) (.abra l) => some (l == .null)
    | _ => none
  match braNull with
  | none => .ok (.ret none)
  | some isnull =>
      if isnull then .ok (.ret (some (if pres then num 0 else other)))
      else .ok (.ret (some (if pres then other else num 0)))

/-- `ParticleOuterProduct(ket, bra)` (particle.py lines 122-129): the
null/null outer product collapses to `AbsenceProjection`. -/
def mkParticleOuter (k b : Expr) : Except PErr Expr :=
  match k, b with
  | .aket kl, .abra bl =>
      if kl == ALabel.null && bl == ALabel.null then .ok absProj else .ok (outer k b)
  | _, _ => .error (.msg "Invalid argument for ParticleOuterProduct")

/-- `rhs._apply_from_right_to(lhs)` over the fragment's atom families
(Projection, ProductOuterProduct, ParticleOuterProduct; everything else
has no such method and raises). -/
def applyFromRightTo (rhs lhs : Expr) : Except PErr CapRes :=
  match rhs with
  | .presProj => projFromRight true lhs
  | .absProj => projFromRight false lhs
  | .outer (.pket ks) (.pbra bs) =>
      match lhs with
      | .pbra _ => do
          let ip ← ipDoit lhs (pket ks)
          .ok (.ret (some (mkMul [ip, pbra bs])))
      | _ => .ok (.ret none)
  | .outer (.aket kl) (.abra bl) =>
      match lhs with
      | .abra _ => do
          let ip ← ipDoit lhs (aket kl)
          .ok (.ret (some (mkMul [ip, abra bl])))
      | .outer (.aket okl) (.abra obl) => do
          let ip ← ipDoit (abra obl) (aket kl)
          let op ← mkParticleOuter (aket okl) (abra bl)
          .ok (.ret (some (mkMul [ip, op])))
      | .presProj =>
          if kl == ALabel.null then .ok (.ret (some (num 0)))
          else .ok (.ret (some rhs))
      | .absProj =>
          if kl == ALabel.null then .ok (.ret (some rhs))
          else .ok (.ret (some (num 0)))
      | _ => .ok (.ret none)
  | _ => .ok .notimpl

/-- The prioritized pairwise dispatch of `apply_op_Mul`
(apply_op.py lines 163-181): try `lhs._apply_operator(rhs)`; only if that
RAISES, try `rhs._apply_from_right_to(lhs)`; only if that also raises and
lhs is a Bra and rhs is a Ket, reduce `InnerProduct(lhs, rhs)` (with
`ip_doit=True`); otherwise the pair does not interact (`none`). -/
def dispatchPair (lhs rhs : Expr) : Except PErr (Option Expr) := do
  match ← applyOperator lhs rhs with
  | .ret r => .ok r
  | .notimpl =>
    match ← applyFromRightTo rhs lhs with
    | .ret r => .ok r
    | .notimpl =>
        if isBraBase lhs && isKetBase rhs then do
          let r ← ipDoit lhs rhs
          .ok (some r)
        else .ok none

/-- The tensor-product guard of apply_op.py lines 132-136: both factors
are `TensorProduct` instances of equal arity with every slot an
`Operator`, `State`, `Mul`, `Pow` or `1`. -/
def tpGuard (lhs rhs : Expr) : Bool :=
  let slotOK := fun (a : Expr) =>
    isOperator a || isState a || isMulNode a || (match a with | .pow _ _ => true | _ => false)
      || beqE a (num 1)
  isTensorP lhs && (tpArgsOf lhs).all slotOK && isTensorP rhs && (tpArgsOf rhs).all slotOK
    && (tpArgsOf lhs).length == (tpArgsOf rhs).length

/-- Reassembly of the slot-wise results (apply_op.py lines 147-157): all
`Number`s multiply out; otherwise `TensorProduct(*results)` is expanded
and, if it became an `Add`, each term is rebuilt through `rhs.func` from
its non-commutative part. -/
def tpAssemble (rhs : Expr) (tps : Expr) (results : List Expr) : Except PErr Expr :=
  match tps with
  | .add ts =>
      ts.foldlM (fun acc term => do
        let p := argsCnc term
        let r ← tpFunc rhs p.2
        Except.ok (mkAdd [acc, mkMul [mkMul p.1, r]])) (num 0)
  | _ => tpFunc rhs results

/-- The OuterProduct unfolding of apply_op.py lines 116-118: push the ket
into the pending factors and continue with the bra. -/
def outerUnfold (args : List Expr) (lhs : Expr) : List Expr × Expr :=
  match lhs with
  | .outer k b => (args ++ [k], b)
  | _ => (args, lhs)

/-- Continuations of the engine: `op e` is a call `apply_op(e)`, `loop e`
is the `while isinstance(e, Mul)` loop of `apply_op`, `opMul e` is a call
`apply_op_Mul(e)`, `core1`/`core2` are the stages of the `apply_op_Mul`
body after the two factors have been popped (`core1` performs the Pow
splitting of lines 109-113, `core2` everything from the OuterProduct
unfolding of line 116 on), and `slots` is the slot-wise combination loop
of lines 139-145 (`e`, `args` and `rhs` are carried for the final
reassembly; `acc` holds the slot results in reverse). -/
inductive Call where
  | op (e : Expr)
  | loop (e : Expr)
  | opMul (e : Expr)
  | core1 (e : Expr) (args : List Expr) (lhs rhs : Expr)
  | core2 (e : Expr) (args : List Expr) (lhs rhs : Expr)
  | slots (e : Expr) (args : List Expr) (rhs : Expr)
      (pairs : List (Expr × Expr)) (acc : List Expr)

/-- The engine.  `step fuel (.op e)` is `apply_op(e)` (apply_op.py lines
22-86) and `step fuel (.opMul e)` is `apply_op_Mul(e)` (lines 89-198),
with every recursive call consuming one unit of fuel: the Python
functions have no termination guard, so a computation that does not
finish within any finite fuel is a genuine non-termination (in CPython an
eventual `RecursionError`).  Options are fixed at their defaults
(`dagger=False`, `ip_doit=True`). -/
def step : Nat → Call → Except PErr Expr
  | 0, _ => .error .fuel
  | n + 1, .op e =>
      -- apply_op: the zero test, the global expansion of line 42, the
      -- KetBase / Add / TensorProduct / Pow / Mul branches.
      if beqE e (num 0) then .ok (num 0)
      else do
        let e ← expandE e
        if isKetBase e then .ok e
        else match e with
        | .add ts => do
            let terms ← ts.mapM (fun t => step n (.op t))
            expandE (mkAdd terms)
        | .pbra cs => do mkFieldBra (← cs.mapM (fun t => step n (.op t)))
        | .pop cs => do mkFieldOp (← cs.mapM (fun t => step n (.op t)))
        | .tp cs => do .ok (mkTP (← cs.mapM (fun t => step n (.op t))))
        | .pow b k => do .ok (mkPow (← step n (.op b)) k)
        | .mul _ => step n (.loop e)
        | _ => .ok e
  | n + 1, .loop e =>
      -- the `while isinstance(e, Mul)` loop (lines 68-82), dagger=False:
      -- a fixed point (`result == e`) breaks out and returns e.
      match e with
      | .mul fs =>
          let c := fs.filter isComm
          let nc := fs.filter (fun a => !isComm a)
          let ncMul := mkMul nc
          do
            let r ←
              match ncMul with
              | .mul _ => step n (.opMul ncMul)
              | x => step n (.op x)
            let result := mkMul [mkMul c, r]
            if beqE result e then .ok e else step n (.loop result)
      | _ => .ok e
  | n + 1, .opMul e =>
      -- apply_op_Mul entry (lines 96-107): pop rhs and lhs, give up on
      -- products with at most one factor and on commutative ends.
      match e with
      | .mul fs =>
          if fs.length ≤ 1 then .ok e
          else
            match fs.reverse with
            | rhs :: lhs :: rest =>
                if isComm rhs || isComm lhs then .ok e
                else step n (.core1 e rest.reverse lhs rhs)
            | _ => .ok e
      | _ => .ok e
  | n + 1, .core1 e args lhs rhs =>
      -- Pow splitting (lines 109-113): for ANY Pow with an integer
      -- exponent, append base**(exp-1) and continue with the base.
      match lhs with
      | .pow b (.i k) => step n (.core2 e (args ++ [mkPow b (.i (k - 1))]) b rhs)
      | _ => step n (.core2 e args lhs rhs)
  | n + 1, .core2 e args lhs rhs =>
      -- OuterProduct unfolding (lines 116-118), the tensor-product branch
      -- (lines 132-161) and the capability dispatch (lines 163-198).
      -- (The Commutator branch of lines 120-129 is dead in the fragment:
      -- there are no commutator nodes.)
      let ul := outerUnfold args lhs
      let args := ul.1
      let lhs := ul.2
      if tpGuard lhs rhs then
        step n (.slots e args rhs ((tpArgsOf lhs).zip (tpArgsOf rhs)) [])
      else do
        match ← dispatchPair lhs rhs with
        | some r =>
            if beqE r (num 0) then .ok (num 0)
            else if isInnerNode r then do
              let rest ← step n (.opMul (mkMul args))
              .ok (mkMul [r, rest])
            else step n (.op (mkMul [mkMul args, r]))
        | none =>
            if args.isEmpty then .ok e
            else do
              let r ← step n (.opMul (mkMul (args ++ [lhs])))
              .ok (mkMul [r, rhs])
  | n + 1, .slots e args rhs pairs acc =>
      -- slot-wise combination (lines 139-161): any zero slot result
      -- short-circuits the whole product to zero.
      match pairs with
      | [] => do
          let results := acc.reverse
          let result ←
            if results.all isNumber then Except.ok (mkMul results)
            else do
              let tps ← expandE (mkTP results)
              tpAssemble rhs tps results
          step n (.op (mkMul [mkMul args, result]))
      | (l, r) :: rest => do
          let res ← step n (.op (mkMul [l, r]))
          if beqE res (num 0) then .ok (num 0)
          else step n (.slots e args rhs rest (res :: acc))

/-- `apply_op(e)` with the given fuel. -/
def apply_op (n : Nat) (e : Expr) : Except PErr Expr := step n (.op e)

/-- `apply_op_Mul(e)` with the given fuel. -/
def apply_op_Mul (n : Nat) (e : Expr) : Except PErr Expr := step n (.opMul e)

/-!  Supporting lemmas. -/

theorem bind_ok {α β : Type} (v : α) (f : α → Except PErr β) :
    (Except.ok v >>= f) = f v := rfl

theorem bind_err {α β : Type} (e : PErr) (f : α → Except PErr β) :
    ((Except.error e : Except PErr α) >>= f) = Except.error e := rfl

/-!  Staged evaluation lemmas: small equations for single reduction
stages of the engine, used to drive symbolic traces (whnf on the
`brecOn`-compiled recursive functions is too costly to use directly). -/

theorem expandL_nil : expandL [] = .ok [] := rfl

theorem expandL_cons (e : Expr) (es : List Expr) :
    expandL (e :: es)
      = (expandE e >>= fun x => expandL es >>= fun xs => Except.ok (x :: xs)) := by
  simp only [expandL]

theorem expandE_mul_eq (fs : List Expr) :
    expandE (mul fs)
      = (expandL fs >>= fun fs' => Except.ok (mkAdd ((crossTerms fs').map mkMul))) := by
  simp only [expandE]

theorem expandE_pow_fixed (b : Expr) (k : PExp) (hb : expandE b = .ok b)
    (hnb : ∀ ts, b ≠ add ts) :
    expandE (pow b k) = .ok (pow b k) := by
  simp only [expandE, hb, bind_ok]
  cases b <;> first
    | exact absurd rfl (hnb _)
    | (cases k <;> simp [beqE_self])

theorem crossTerms_pair_noadd (a b : Expr) (ha : addArgsOf a = [a])
    (hb : addArgsOf b = [b]) : crossTerms [a, b] = [[a, b]] := by
  simp [crossTerms, ha, hb]

theorem crossTerms_single_noadd (a : Expr) (ha : addArgsOf a = [a]) :
    crossTerms [a] = [[a]] := by
  simp [crossTerms, ha]

theorem mkMul_pair_nc (a b : Expr) (ha : isComm a = false) (hb : isComm b = false)
    (hma : mulArgsOf a = [a]) (hmb : mulArgsOf b = [b])
    (hbase : beqE (baseExpOf a).1 (baseExpOf b).1 = false) :
    mkMul [a, b] = mul [a, b] := by
  have h10 : ((1 : ℚ) == 0) = false := rfl
  have h11 : ((1 : ℚ) == 1) = true := rfl
  simp only [mkMul, List.flatMap_cons, List.flatMap_nil, hma, hmb, List.append_nil,
    List.nil_append, List.filter_cons, List.filter_nil, ha, hb, Bool.not_false,
    Bool.not_true, if_true, if_false, mergeAdj, List.foldl_cons, List.foldl_nil,
    mergeStep, hbase, List.reverse_cons, List.reverse_nil, List.foldl_nil,
    List.cons_append, h10, h11, Bool.false_eq_true, Bool.true_eq_false]

theorem mkMul_single_nc (a : Expr) (ha : isComm a = false) (hma : mulArgsOf a = [a]) :
    mkMul [a] = a := by
  have h10 : ((1 : ℚ) == 0) = false := rfl
  have h11 : ((1 : ℚ) == 1) = true := rfl
  simp only [mkMul, List.flatMap_cons, List.flatMap_nil, hma, List.append_nil,
    List.nil_append, List.filter_cons, List.filter_nil, ha, Bool.not_false, if_true,
    if_false, mergeAdj, List.foldl_cons, List.foldl_nil, mergeStep,
    List.reverse_cons, List.reverse_nil, List.cons_append, h10, h11,
    Bool.false_eq_true]

theorem mkMul_one_nc (a : Expr) (ha : isComm a = false) (hma : mulArgsOf a = [a]) :
    mkMul [num 1, a] = a := by
  have h10 : ((1 * 1 : ℚ) == 0) = false := by norm_num
  have h11 : ((1 * 1 : ℚ) == 1) = true := by norm_num
  have hm1 : mulArgsOf (num 1) = [num 1] := rfl
  have hc1 : isComm (num 1) = true := rfl
  have hn1 : isNumber (num 1) = true := rfl
  simp only [mkMul, List.flatMap_cons, List.flatMap_nil, hm1, hma,
    List.append_nil, List.nil_append, List.filter_cons, List.filter_nil, ha, hc1,
    Bool.not_false, Bool.not_true, if_true, if_false, mergeAdj, List.foldl_cons,
    List.foldl_nil, mergeStep, List.reverse_cons, List.reverse_nil,
    List.cons_append, hn1, h10, h11, Bool.false_eq_true]

theorem mkAdd_single (t : Expr) (hat : addArgsOf t = [t])
    (hz : beqE t (num 0) = false) (hsplit : coeffSplit t = (1, t))
    (h1 : beqE t (num 1) = false) : mkAdd [t] = t := by
  have h10 : ((1 : ℚ) == 0) = false := rfl
  have h11 : ((1 : ℚ) == 1) = true := rfl
  simp only [mkAdd, List.flatMap_cons, List.flatMap_nil, hat, List.append_nil,
    List.filter_cons, List.filter_nil, hz, Bool.not_false, if_true, List.foldl_cons,
    List.foldl_nil, hsplit, addInsert, List.filterMap_cons, List.filterMap_nil,
    h10, h11, h1, Bool.false_eq_true, if_false]

theorem step_op_to_loop (n : Nat) (e : Expr) (fs : List Expr)
    (h0 : beqE e (num 0) = false) (hx : expandE e = .ok (mul fs)) :
    step (n + 1) (.op e) = step n (.loop (mul fs)) := by
  simp only [step, h0, Bool.false_eq_true, if_false, hx, bind_ok]
  rfl

theorem step_op_ket (n : Nat) (e k : Expr) (h0 : beqE e (num 0) = false)
    (hx : expandE e = .ok k) (hk : isKetBase k = true) :
    step (n + 1) (.op e) = .ok k := by
  simp only [step, h0, Bool.false_eq_true, if_false, hx, bind_ok, hk, if_true]

theorem step_op_num (n : Nat) (q : ℚ) : step (n + 1) (.op (num q)) = .ok (num q) := by
  by_cases hq : q = 0
  · subst hq; rfl
  · have h0 : beqE (num q) (num 0) = false := (beqE_false_iff _ _).mpr (by simp [hq])
    simp only [step, h0, Bool.false_eq_true, if_false]
    have hx : expandE (num q) = .ok (num q) := rfl
    simp only [hx, bind_ok]
    rfl

theorem step_loop_two (n : Nat) (a b : Expr) (ha : isComm a = false)
    (hb : isComm b = false) (hmk : mkMul [a, b] = mul [a, b]) :
    step (n + 1) (.loop (mul [a, b]))
      = (step n (.opMul (mul [a, b])) >>= fun r =>
          if beqE (mkMul [mkMul [], r]) (mul [a, b]) then .ok (mul [a, b])
          else step n (.loop (mkMul [mkMul [], r]))) := by
  simp only [step, List.filter_cons, List.filter_nil, ha, hb, Bool.not_false,
    Bool.false_eq_true, Bool.true_eq_false, if_true, if_false, hmk]

theorem step_opMul_two (n : Nat) (a b : Expr) (ha : isComm a = false)
    (hb : isComm b = false) :
    step (n + 1) (.opMul (mul [a, b])) = step n (.core1 (mul [a, b]) [] a b) := by
  simp only [step, List.length_cons, List.length_nil, Nat.reduceAdd,
    List.reverse_cons, List.reverse_nil, List.nil_append, List.cons_append,
    ha, hb, Bool.or_self, Bool.false_eq_true, if_false]
  rfl

theorem step_core1_pow (n : Nat) (e : Expr) (args : List Expr) (b : Expr) (k : Int)
    (rhs : Expr) :
    step (n + 1) (.core1 e args (pow b (.i k)) rhs)
      = step n (.core2 e (args ++ [mkPow b (.i (k - 1))]) b rhs) := rfl

theorem step_core2_applied (n : Nat) (e : Expr) (args args' : List Expr)
    (lhs lhs' rhs r : Expr) (hou : outerUnfold args lhs = (args', lhs'))
    (htp : tpGuard lhs' rhs = false) (hdp : dispatchPair lhs' rhs = .ok (some r))
    (hr0 : beqE r (num 0) = false) (hri : isInnerNode r = false) :
    step (n + 1) (.core2 e args lhs rhs) = step n (.op (mkMul [mkMul args', r])) := by
  simp only [step, hou, htp, Bool.false_eq_true, if_false, hdp, bind_ok, hr0, hri]

theorem step_core2_zero (n : Nat) (e : Expr) (args args' : List Expr)
    (lhs lhs' rhs : Expr) (hou : outerUnfold args lhs = (args', lhs'))
    (htp : tpGuard lhs' rhs = false)
    (hdp : dispatchPair lhs' rhs = .ok (some (num 0))) :
    step (n + 1) (.core2 e args lhs rhs) = .ok (num 0) := by
  simp only [step, hou, htp, Bool.false_eq_true, if_false, hdp, bind_ok]
  rfl

theorem step_core2_none_empty (n : Nat) (e : Expr) (lhs lhs' rhs : Expr)
    (hou : outerUnfold [] lhs = ([], lhs')) (htp : tpGuard lhs' rhs = false)
    (hdp : dispatchPair lhs' rhs = .ok none) :
    step (n + 1) (.core2 e [] lhs rhs) = .ok e := by
  simp only [step, hou, htp, Bool.false_eq_true, if_false, hdp, bind_ok]
  rfl

theorem step_core2_tp (n : Nat) (e : Expr) (args args' : List Expr)
    (lhs lhs' rhs : Expr) (hou : outerUnfold args lhs = (args', lhs'))
    (htp : tpGuard lhs' rhs = true) :
    step (n + 1) (.core2 e args lhs rhs)
      = step n (.slots e args' rhs ((tpArgsOf lhs').zip (tpArgsOf rhs)) []) := by
  simp only [step, hou, htp, if_true]

theorem step_slots_zero (n : Nat) (e : Expr) (args : List Expr) (rhs l0 r0 : Expr)
    (qs : List (Expr × Expr)) (acc : List Expr)
    (h0 : step n (.op (mkMul [l0, r0])) = .ok (num 0)) :
    step (n + 1) (.slots e args rhs ((l0, r0) :: qs) acc) = .ok (num 0) := by
  simp only [step, h0, bind_ok]
  rfl

theorem step_slots_cont (n : Nat) (e : Expr) (args : List Expr) (rhs l0 r0 : Expr)
    (qs : List (Expr × Expr)) (acc : List Expr) (v : Expr)
    (hv : step n (.op (mkMul [l0, r0])) = .ok v) (hvne : beqE v (num 0) = false) :
    step (n + 1) (.slots e args rhs ((l0, r0) :: qs) acc)
      = step n (.slots e args rhs qs (v :: acc)) := by
  simp only [step, hv, bind_ok, hvne, Bool.false_eq_true, if_false]

theorem step_core1_swap (n : Nat) (e : Expr) (args : List Expr) (i j : Nat)
    (rhs : Expr) :
    step (n + 1) (.core1 e args (pswap i j) rhs)
      = step n (.core2 e args (pswap i j) rhs) := rfl

theorem step_loop_pket (n : Nat) (cs : List Expr) :
    step (n + 1) (.loop (pket cs)) = .ok (pket cs) := rfl

theorem expandE_mul_pair_fixed (a b : Expr)
    (hxa : expandE a = .ok a) (hxb : expandE b = .ok b)
    (haa : addArgsOf a = [a]) (hab : addArgsOf b = [b])
    (hmk : mkMul [a, b] = mul [a, b])
    (hz : beqE (mul [a, b]) (num 0) = false)
    (hsplit : coeffSplit (mul [a, b]) = (1, mul [a, b]))
    (h1 : beqE (mul [a, b]) (num 1) = false) :
    expandE (mul [a, b]) = .ok (mul [a, b]) := by
  rw [expandE_mul_eq, expandL_cons, hxa]
  simp only [bind_ok]
  rw [expandL_cons, hxb]
  simp only [bind_ok]
  rw [expandL_nil]
  simp only [bind_ok]
  rw [crossTerms_pair_noadd _ _ haa hab]
  simp only [List.map_cons, List.map_nil]
  rw [hmk]
  exact congrArg Except.ok (mkAdd_single _ rfl hz hsplit h1)

theorem list_set_self {α : Type} (l : List α) (i : Nat) (h : i < l.length) :
    l.set i l[i] = l := by
  apply List.ext_getElem
  · simp
  · intro k h1 h2
    rcases eq_or_ne k i with rfl | hne
    · simp
    · rw [List.getElem_set_ne (Ne.symm hne)]

theorem crossTerms_noadd (cs : List Expr) (h : ∀ c ∈ cs, addArgsOf c = [c]) :
    crossTerms cs = [cs] := by
  induction cs with
  | nil => rfl
  | cons c rest ih =>
      have hc := h c (List.mem_cons_self c rest)
      have ih2 := ih (fun x hx => h x (List.mem_cons_of_mem c hx))
      simp only [crossTerms, hc, ih2, List.flatMap_cons, List.flatMap_nil,
        List.map_cons, List.map_nil, List.append_nil]

theorem addArgsOf_map_aket (ls : List ALabel) :
    ∀ c ∈ ls.map aket, addArgsOf c = [c] := by
  intro c hc
  obtain ⟨l, _, rfl⟩ := List.mem_map.mp hc
  rfl

theorem expandL_map_aket (ls : List ALabel) :
    expandL (ls.map aket) = .ok (ls.map aket) := by
  induction ls with
  | nil => rfl
  | cons l t ih =>
      rw [List.map_cons, expandL_cons, show expandE (aket l) = .ok (aket l) from rfl]
      simp only [bind_ok]
      rw [ih]
      rfl

theorem anyZero_map_aket (ls : List ALabel) :
    ((ls.map aket).any fun a => beqE a (num 0)) = false := by
  induction ls with
  | nil => rfl
  | cons l t ih =>
      simp only [List.map_cons, List.any_cons, ih, Bool.or_false]
      rfl

theorem check_map_aket (ls : List ALabel) :
    checkComponents isParticleKet (ls.map aket) = true := by
  simp only [checkComponents, List.all_eq_true]
  intro arg harg
  obtain ⟨l, _, rfl⟩ := List.mem_map.mp harg
  rfl

theorem mkFieldKet_map_aket (ls : List ALabel) :
    mkFieldKet (ls.map aket) = .ok (pket (ls.map aket)) := by
  show productStateNew isParticleKet pket (ls.map aket) = _
  simp only [productStateNew, anyZero_map_aket, check_map_aket,
    Bool.false_eq_true, if_false, if_true]

theorem expandE_pket_map_aket (ls : List ALabel) :
    expandE (pket (ls.map aket)) = .ok (pket (ls.map aket)) := by
  simp only [expandE]
  rw [expandL_map_aket]
  simp only [bind_ok, distribTP]
  rw [crossTerms_noadd _ (addArgsOf_map_aket ls)]
  simp only [List.mapM_cons, List.mapM_nil, mkFieldKet_map_aket, bind_ok]
  exact congrArg Except.ok (mkAdd_single _ rfl rfl rfl rfl)

theorem swap_particles_map_aket (ls : List ALabel) (i j : Nat)
    (hi : i < ls.length) (hj : j < ls.length) :
    swap_particles (pket (ls.map aket)) i j
      = .ok (pket (((ls.set i ls[j]).set j ls[i]).map aket)) := by
  have hi2 : i < (ls.map aket).length := by simpa using hi
  have hj2 : j < (ls.map aket).length := by simpa using hj
  have hgi : (ls.map aket)[i]? = some (aket ls[i]) := by
    rw [List.getElem?_eq_getElem hi2, List.getElem_map]
  have hgj : (ls.map aket)[j]? = some (aket ls[j]) := by
    rw [List.getElem?_eq_getElem hj2, List.getElem_map]
  simp only [swap_particles, hgi, hgj]
  rw [← List.map_set, ← List.map_set]
  exact mkFieldKet_map_aket _

theorem addArgsOf_map_abra (ls : List ALabel) :
    ∀ c ∈ ls.map abra, addArgsOf c = [c] := by
  intro c hc
  obtain ⟨l, _, rfl⟩ := List.mem_map.mp hc
  rfl

theorem expandL_map_abra (ls : List ALabel) :
    expandL (ls.map abra) = .ok (ls.map abra) := by
  induction ls with
  | nil => rfl
  | cons l t ih =>
      rw [List.map_cons, expandL_cons, show expandE (abra l) = .ok (abra l) from rfl]
      simp only [bind_ok]
      rw [ih]
      rfl

theorem anyZero_map_abra (ls : List ALabel) :
    ((ls.map abra).any fun a => beqE a (num 0)) = false := by
  induction ls with
  | nil => rfl
  | cons l t ih =>
      simp only [List.map_cons, List.any_cons, ih, Bool.or_false]
      rfl

theorem check_map_abra (ls : List ALabel) :
    checkComponents isParticleBra (ls.map abra) = true := by
  simp only [checkComponents, List.all_eq_true]
  intro arg harg
  obtain ⟨l, _, rfl⟩ := List.mem_map.mp harg
  rfl

theorem mkFieldBra_map_abra (ls : List ALabel) :
    mkFieldBra (ls.map abra) = .ok (pbra (ls.map abra)) := by
  show productStateNew isParticleBra pbra (ls.map abra) = _
  simp only [productStateNew, anyZero_map_abra, check_map_abra,
    Bool.false_eq_true, if_false, if_true]

theorem expandE_pbra_map_abra (ls : List ALabel) :
    expandE (pbra (ls.map abra)) = .ok (pbra (ls.map abra)) := by
  simp only [expandE]
  rw [expandL_map_abra]
  simp only [bind_ok, distribTP]
  rw [crossTerms_noadd _ (addArgsOf_map_abra ls)]
  simp only [List.mapM_cons, List.mapM_nil, mkFieldBra_map_abra, bind_ok]
  exact congrArg Except.ok (mkAdd_single _ rfl rfl rfl rfl)

theorem step_core1_abra (n : Nat) (e : Expr) (args : List Expr) (l : ALabel)
    (rhs : Expr) :
    step (n + 1) (.core1 e args (abra l) rhs)
      = step n (.core2 e args (abra l) rhs) := rfl

theorem step_core1_outerNode (n : Nat) (e : Expr) (args : List Expr) (k b : Expr)
    (rhs : Expr) :
    step (n + 1) (.core1 e args (outer k b) rhs)
      = step n (.core2 e args (outer k b) rhs) := rfl

theorem step_loop_num (n : Nat) (q : ℚ) :
    step (n + 1) (.loop (num q)) = .ok (num q) := rfl

theorem aket_abra_inner_cases (c b : ALabel) :
    eval_innerproduct (aket c) (abra b) = .ok (some (num 1)) ∨
    eval_innerproduct (aket c) (abra b) = .ok (some (num 0)) ∨
    eval_innerproduct (aket c) (abra b) = .ok none := by
  cases c with
  | null =>
      cases b with
      | null => exact .inl rfl
      | lbl x => exact .inr (.inl rfl)
      | sym x => exact .inr (.inl rfl)
  | lbl a =>
      cases b with
      | null => exact .inr (.inl rfl)
      | lbl x =>
          cases hax : (a == x) with
          | true =>
              refine .inl ?_
              simp only [eval_innerproduct, hax, if_true]
          | false =>
              refine .inr (.inl ?_)
              simp only [eval_innerproduct, hax, Bool.false_eq_true, if_false]
      | sym x => exact .inr (.inr rfl)
  | sym a =>
      cases b with
      | null => exact .inr (.inl rfl)
      | lbl x => exact .inr (.inr rfl)
      | sym x => exact .inr (.inr rfl)

theorem innerLoop_nil_ks (bs : List Expr) :
    innerLoop [] bs = .ok (some (num 1)) := by
  simp only [innerLoop]

theorem innerLoop_nil_bs (ks : List Expr) :
    innerLoop ks [] = .ok (some (num 1)) := by
  cases ks <;> rfl

theorem innerLoop_cons (k b : Expr) (ks bs : List Expr) :
    innerLoop (k :: ks) (b :: bs)
      = (eval_innerproduct k b >>= fun o =>
          match o with
          | none => .ok none
          | some r =>
              if beqE r (num 0) then .ok (some (num 0)) else innerLoop ks bs) := by
  simp only [innerLoop]

theorem expandE_outer_eq (k b : Expr) :
    expandE (outer k b)
      = (expandE k >>= fun x => expandE b >>= fun y => .ok (outer x y)) := by
  simp only [expandE]

theorem slot_inner_one (m : Nat) (b c : ALabel)
    (h1 : eval_innerproduct (aket c) (abra b) = .ok (some (num 1))) :
    step (m + 7) (.op (mul [abra b, aket c])) = .ok (num 1) := by
  have hca : isComm (abra b) = false := rfl
  have hck : isComm (aket c) = false := rfl
  have hmk : mkMul [abra b, aket c] = mul [abra b, aket c] :=
    mkMul_pair_nc _ _ hca hck rfl rfl rfl
  have h0 : beqE (mul [abra b, aket c]) (num 0) = false := rfl
  have hE : expandE (mul [abra b, aket c]) = .ok (mul [abra b, aket c]) :=
    expandE_mul_pair_fixed _ _ rfl rfl rfl rfl hmk rfl rfl rfl
  have hip : ipDoit (abra b) (aket c) = .ok (num 1) := by
    simp only [ipDoit, h1, bind_ok]
  have hdp : dispatchPair (abra b) (aket c) = .ok (some (num 1)) := by
    simp only [dispatchPair,
      show applyOperator (abra b) (aket c) = .ok .notimpl from rfl, bind_ok,
      show applyFromRightTo (aket c) (abra b) = .ok .notimpl from rfl,
      show (isBraBase (abra b) && isKetBase (aket c)) = true from rfl, if_true,
      hip]
  have hmm1 : mkMul [mkMul [], num 1] = num 1 := by with_unfolding_all rfl
  have s5 : step (m + 2) (.op (num 1)) = .ok (num 1) := step_op_num (m + 1) 1
  have s4 : step (m + 3) (.core2 (mul [abra b, aket c]) [] (abra b) (aket c))
      = .ok (num 1) := by
    rw [step_core2_applied (m + 2) _ [] [] (abra b) (abra b) (aket c) (num 1)
      rfl rfl hdp rfl rfl, hmm1]
    exact s5
  have s3 : step (m + 4) (.core1 (mul [abra b, aket c]) [] (abra b) (aket c))
      = .ok (num 1) := by
    rw [step_core1_abra (m + 3)]
    exact s4
  have s2 : step (m + 5) (.opMul (mul [abra b, aket c])) = .ok (num 1) := by
    rw [step_opMul_two (m + 4) _ _ hca hck]
    exact s3
  have s1 : step (m + 6) (.loop (mul [abra b, aket c])) = .ok (num 1) := by
    rw [step_loop_two (m + 5) _ _ hca hck hmk, s2]
    simp only [bind_ok]
    rw [hmm1, show beqE (num 1) (mul [abra b, aket c]) = false from rfl]
    simp only [Bool.false_eq_true, if_false]
    exact step_loop_num (m + 4) 1
  rw [step_op_to_loop (m + 6) _ _ h0 hE]
  exact s1

theorem slot_inner_zero (m : Nat) (b c : ALabel)
    (h0v : eval_innerproduct (aket c) (abra b) = .ok (some (num 0))) :
    step (m + 7) (.op (mul [abra b, aket c])) = .ok (num 0) := by
  have hca : isComm (abra b) = false := rfl
  have hck : isComm (aket c) = false := rfl
  have hmk : mkMul [abra b, aket c] = mul [abra b, aket c] :=
    mkMul_pair_nc _ _ hca hck rfl rfl rfl
  have h0 : beqE (mul [abra b, aket c]) (num 0) = false := rfl
  have hE : expandE (mul [abra b, aket c]) = .ok (mul [abra b, aket c]) :=
    expandE_mul_pair_fixed _ _ rfl rfl rfl rfl hmk rfl rfl rfl
  have hip : ipDoit (abra b) (aket c) = .ok (num 0) := by
    simp only [ipDoit, h0v, bind_ok]
  have hdp : dispatchPair (abra b) (aket c) = .ok (some (num 0)) := by
    simp only [dispatchPair,
      show applyOperator (abra b) (aket c) = .ok .notimpl from rfl, bind_ok,
      show applyFromRightTo (aket c) (abra b) = .ok .notimpl from rfl,
      show (isBraBase (abra b) && isKetBase (aket c)) = true from rfl, if_true,
      hip]
  have hmm0 : mkMul [mkMul [], num 0] = num 0 := by with_unfolding_all rfl
  have s4 : step (m + 3) (.core2 (mul [abra b, aket c]) [] (abra b) (aket c))
      = .ok (num 0) :=
    step_core2_zero (m + 2) _ [] [] (abra b) (abra b) (aket c) rfl rfl hdp
  have s3 : step (m + 4) (.core1 (mul [abra b, aket c]) [] (abra b) (aket c))
      = .ok (num 0) := by
    rw [step_core1_abra (m + 3)]
    exact s4
  have s2 : step (m + 5) (.opMul (mul [abra b, aket c])) = .ok (num 0) := by
    rw [step_opMul_two (m + 4) _ _ hca hck]
    exact s3
  have s1 : step (m + 6) (.loop (mul [abra b, aket c])) = .ok (num 0) := by
    rw [step_loop_two (m + 5) _ _ hca hck hmk, s2]
    simp only [bind_ok]
    rw [hmm0, show beqE (num 0) (mul [abra b, aket c]) = false from rfl]
    simp only [Bool.false_eq_true, if_false]
    exact step_loop_num (m + 4) 0
  rw [step_op_to_loop (m + 6) _ _ h0 hE]
  exact s1

theorem slot_inner_one_ge (f : Nat) (hf : 7 ≤ f) (b c : ALabel)
    (h1 : eval_innerproduct (aket c) (abra b) = .ok (some (num 1))) :
    step f (.op (mul [abra b, aket c])) = .ok (num 1) := by
  obtain ⟨k, rfl⟩ := Nat.exists_eq_add_of_le hf
  rw [Nat.add_comm 7 k]
  exact slot_inner_one k b c h1

theorem slot_inner_zero_ge (f : Nat) (hf : 7 ≤ f) (b c : ALabel)
    (h0v : eval_innerproduct (aket c) (abra b) = .ok (some (num 0))) :
    step f (.op (mul [abra b, aket c])) = .ok (num 0) := by
  obtain ⟨k, rfl⟩ := Nat.exists_eq_add_of_le hf
  rw [Nat.add_comm 7 k]
  exact slot_inner_zero k b c h0v

theorem slots_of_innerLoop_zero :
    ∀ (lb lc : List ALabel) (f : Nat) (e : Expr) (args : List Expr) (rhs : Expr)
      (acc : List Expr),
      lb.length + 9 ≤ f →
      innerLoop (lc.map aket) (lb.map abra) = .ok (some (num 0)) →
      step f (.slots e args rhs ((lb.map abra).zip (lc.map aket)) acc)
        = .ok (num 0) := by
  intro lb
  induction lb with
  | nil =>
      intro lc f e args rhs acc hf hloop
      rw [List.map_nil, innerLoop_nil_bs] at hloop
      simp only [Except.ok.injEq, Option.some.injEq] at hloop
      exact absurd hloop ((beqE_false_iff (num 1) (num 0)).mp rfl)
  | cons b lbs ih =>
      intro lc f e args rhs acc hf hloop
      cases lc with
      | nil =>
          rw [List.map_nil, innerLoop_nil_ks] at hloop
          simp only [Except.ok.injEq, Option.some.injEq] at hloop
          exact absurd hloop ((beqE_false_iff (num 1) (num 0)).mp rfl)
      | cons c lcs =>
          obtain ⟨f, rfl⟩ : ∃ g, f = g + 1 := ⟨f - 1, by omega⟩
          rw [List.map_cons, List.map_cons, innerLoop_cons] at hloop
          rw [List.map_cons, List.map_cons, List.zip_cons_cons]
          have hmkbc : mkMul [abra b, aket c] = mul [abra b, aket c] :=
            mkMul_pair_nc _ _ rfl rfl rfl rfl rfl
          rcases aket_abra_inner_cases c b with h1 | h0 | hn
          · rw [h1] at hloop
            simp only [bind_ok, show beqE (num 1) (num 0) = false from rfl,
              Bool.false_eq_true, if_false] at hloop
            have hv : step f (.op (mkMul [abra b, aket c])) = .ok (num 1) := by
              rw [hmkbc]
              exact slot_inner_one_ge f (by simp at hf; omega) b c h1
            rw [step_slots_cont f e args rhs (abra b) (aket c) _ acc (num 1) hv rfl]
            exact ih lcs f e args rhs (num 1 :: acc) (by simp at hf ⊢; omega) hloop
          · have hv : step f (.op (mkMul [abra b, aket c])) = .ok (num 0) := by
              rw [hmkbc]
              exact slot_inner_zero_ge f (by simp at hf; omega) b c h0
            exact step_slots_zero f e args rhs (abra b) (aket c) _ acc hv
          · rw [hn] at hloop
            simp only [bind_ok] at hloop
            exact Option.noConfusion (Except.ok.inj hloop)

theorem dispatch_swap_pket (ls : List ALabel) (i j : Nat)
    (hi : i < ls.length) (hj : j < ls.length) :
    dispatchPair (pswap i j) (pket (ls.map aket))
      = .ok (some (pket (((ls.set i ls[j]).set j ls[i]).map aket))) := by
  have hao : applyOperator (pswap i j) (pket (ls.map aket))
      = .ok (.ret (some (pket (((ls.set i ls[j]).set j ls[i]).map aket)))) := by
    simp only [applyOperator]
    rw [show isFieldSOp (pket (ls.map aket)) = true from rfl]
    simp only [if_true]
    rw [swap_particles_map_aket ls i j hi hj]
    rfl
  simp only [dispatchPair, hao, bind_ok]

/-! Claim theorems. -/

/-- C9: constructing any `ProductState` or `ProductQExpr` (hence any of
their concrete subclasses, e.g. `FieldKet` or `UniverseKet`, which only
vary the component-class check `chk` and the node builder `node`) with a
component equal to `0` returns the scalar zero -- never a tensor-product
node -- because the zero test precedes everything else in `__new__`. -/
theorem product_state_zero_component_collapses
    (chk : Expr → Bool) (node : List Expr → Expr) (args : List Expr)
    (h : Expr.num 0 ∈ args) :
    productStateNew chk node args = .ok (num 0) ∧
    productQExprNew chk node args = .ok (num 0) := by
  have hany : args.any (fun a => beqE a (num 0)) = true :=
    List.any_eq_true.mpr ⟨num 0, h, beqE_self _⟩
  constructor <;> simp [productStateNew, productQExprNew, hany]

/-- C9 witness: `FieldKet(ParticleKet(1), 0)` collapses to the scalar
zero (and so does the `ProductQExpr` construction on the same args). -/
theorem product_state_zero_component_collapses_witness :
    productStateNew isParticleKet pket [aket (.lbl 1), num 0] = .ok (num 0) ∧
    productQExprNew isParticleKet pket [aket (.lbl 1), num 0] = .ok (num 0) :=
  product_state_zero_component_collapses isParticleKet pket _ (by simp)

/-- C10: the component loop of `ProductKet._eval_innerproduct` evaluates
component pairs strictly left to right; given a prefix `ks`/`bs` whose
component inner products are all determinate and non-zero: (1) if the
next component is indeterminate (`None`) the result is `None`, whatever
the remaining components (`ks2`/`bs2`, which may well contain a zero)
would give; (2) if the next component gives `0`, the result is the scalar
`0`; and (3) if there is nothing further, the result is exactly the
scalar `1`, regardless of the actual non-unit values `v` of the component
inner products. -/
theorem product_ket_innerproduct_left_to_right
    (f : Expr → Expr → Except PErr (Option Expr)) (ks bs : List Expr)
    (hlen : ks.length = bs.length)
    (hpre : ∀ p ∈ ks.zip bs, ∃ v, f p.1 p.2 = .ok (some v) ∧ v ≠ num 0) :
    (∀ k0 b0 ks2 bs2, f k0 b0 = .ok none →
        innerprodLoopF f (ks ++ k0 :: ks2) (bs ++ b0 :: bs2) = .ok none) ∧
    (∀ k0 b0 ks2 bs2, f k0 b0 = .ok (some (num 0)) →
        innerprodLoopF f (ks ++ k0 :: ks2) (bs ++ b0 :: bs2) = .ok (some (num 0))) ∧
    innerprodLoopF f ks bs = .ok (some (num 1)) := by
  have loop_cons : ∀ (k b : Expr) (ks bs : List Expr),
      innerprodLoopF f (k :: ks) (b :: bs)
        = (f k b >>= fun o => match o with
            | none => Except.ok none
            | some r =>
                if beqE r (num 0) then Except.ok (some (num 0)) else innerprodLoopF f ks bs) :=
    fun _ _ _ _ => rfl
  induction ks generalizing bs with
  | nil =>
    cases bs with
    | nil =>
        refine ⟨fun k0 b0 ks2 bs2 h0 => ?_, fun k0 b0 ks2 bs2 h0 => ?_, rfl⟩ <;>
          (simp only [List.nil_append, loop_cons, h0, bind_ok]; try rfl)
    | cons b bs' => simp at hlen
  | cons k ks' ih =>
    cases bs with
    | nil => simp at hlen
    | cons b bs' =>
      obtain ⟨v, hv, hvne⟩ := hpre (k, b) (by simp)
      have hvfalse : beqE v (num 0) = false := (beqE_false_iff _ _).mpr hvne
      have hlen' : ks'.length = bs'.length := by simpa using hlen
      have hpre' : ∀ p ∈ ks'.zip bs', ∃ v, f p.1 p.2 = .ok (some v) ∧ v ≠ num 0 :=
        fun p hp => hpre p (by simp [hp])
      obtain ⟨ih1, ih2, ih3⟩ := ih bs' hlen' hpre'
      have hstep : ∀ ks2 bs2, innerprodLoopF f ((k :: ks') ++ ks2) ((b :: bs') ++ bs2)
          = innerprodLoopF f (ks' ++ ks2) (bs' ++ bs2) := by
        intro ks2 bs2
        simp only [List.cons_append, loop_cons, hv, bind_ok, hvfalse]
        simp
      refine ⟨fun k0 b0 ks2 bs2 h0 => ?_, fun k0 b0 ks2 bs2 h0 => ?_, ?_⟩
      · rw [hstep]; exact ih1 _ _ _ _ h0
      · rw [hstep]; exact ih2 _ _ _ _ h0
      · have h0 := hstep [] []
        simp only [List.append_nil] at h0
        rw [h0]; exact ih3

/-- C10 witness: with a component capability returning the non-unit value
`2` on the first pair, `None` on label `8`, and `0` on label `9`: an
indeterminate second component wins over a zero third component, a zero
second component gives `0`, and an all-non-zero list gives exactly `1`. -/
theorem product_ket_innerproduct_left_to_right_witness :
    (innerprodLoopF
        (fun k _ => if k == aket (.lbl 8) then .ok none
          else if k == aket (.lbl 9) then .ok (some (num 0)) else .ok (some (num 2)))
        [aket (.lbl 1), aket (.lbl 8), aket (.lbl 9)]
        [abra (.lbl 1), abra (.lbl 8), abra (.lbl 9)] = .ok none) ∧
    (innerprodLoopF
        (fun k _ => if k == aket (.lbl 8) then .ok none
          else if k == aket (.lbl 9) then .ok (some (num 0)) else .ok (some (num 2)))
        [aket (.lbl 1), aket (.lbl 9)] [abra (.lbl 1), abra (.lbl 9)]
        = .ok (some (num 0))) ∧
    innerprodLoopF
        (fun k _ => if k == aket (.lbl 8) then .ok none
          else if k == aket (.lbl 9) then .ok (some (num 0)) else .ok (some (num 2)))
        [aket (.lbl 1), aket (.lbl 2)] [abra (.lbl 1), abra (.lbl 2)]
        = .ok (some (num 1)) := by
  refine ⟨?_, ?_, ?_⟩
  · exact (product_ket_innerproduct_left_to_right _ [aket (.lbl 1)] [abra (.lbl 1)]
      rfl (by
        intro p hp
        refine ⟨num 2, ?_, by decide⟩
        simp at hp; subst hp; rfl)).1
      (aket (.lbl 8)) (abra (.lbl 8)) [aket (.lbl 9)] [abra (.lbl 9)] rfl
  · exact (product_ket_innerproduct_left_to_right _ [aket (.lbl 1)] [abra (.lbl 1)]
      rfl (by
        intro p hp
        refine ⟨num 2, ?_, by decide⟩
        simp at hp; subst hp; rfl)).2.1
      (aket (.lbl 9)) (abra (.lbl 9)) [] [] rfl
  · exact (product_ket_innerproduct_left_to_right _
      [aket (.lbl 1), aket (.lbl 2)] [abra (.lbl 1), abra (.lbl 2)]
      rfl (by
        intro p hp
        refine ⟨num 2, ?_, by decide⟩
        simp at hp
        rcases hp with h | h <;> subst h <;> rfl)).2.2

/-- C3 counterexample: the exponent `-1` is NOT a positive integer, yet
the Power factor IS split: `apply_op` on
`Pow(ParticleSwap(0,1), -1) * FieldKet(k0, k1)` splits the power (the code
checks only `lhs.exp.is_Integer`), applies one `ParticleSwap` (the
appended `ParticleSwap**(-2)` auto-evaluates to the identity), and returns
the swapped ket instead of leaving the product unreduced. -/
theorem pow_split_fires_for_negative_exponent :
    apply_op 30 (mul [pow (pswap 0 1) (.i (-1)), pket [aket (.lbl 0), aket (.lbl 1)]])
      = .ok (pket [aket (.lbl 1), aket (.lbl 0)]) := by with_unfolding_all rfl

/-- C3 amended: in pairwise dispatch, the Power-splitting stage of
`apply_op_Mul` (lines 109-113) replaces a left factor `Pow(base, k)` by
`base`, appending `base ** (k-1)`, for EVERY integer exponent `k`
(positive, zero or negative); only a non-integer (symbolic) exponent is
not split. -/
theorem pow_split_iff_integer_exponent :
    (∀ (n : Nat) (e : Expr) (args : List Expr) (b : Expr) (k : Int) (rhs : Expr),
        step (n + 1) (.core1 e args (pow b (.i k)) rhs)
          = step n (.core2 e (args ++ [mkPow b (.i (k - 1))]) b rhs)) ∧
    (∀ (n : Nat) (e : Expr) (args : List Expr) (b : Expr) (s : Nat) (rhs : Expr),
        step (n + 1) (.core1 e args (pow b (.s s)) rhs)
          = step n (.core2 e args (pow b (.s s)) rhs)) :=
  ⟨fun _ _ _ _ _ _ => rfl, fun _ _ _ _ _ _ => rfl⟩

/-- C5: slot-wise combination of two equal-arity TensorProducts.
(1) When the guard of lines 132-136 holds for a `FieldOperator` against a
`FieldKet`, `apply_op_Mul` enters the slot loop on the zipped slots.
(2) If a slot-wise product normalizes to zero, the whole pair collapses
to the scalar zero immediately, discarding every remaining slot.
(3) A non-zero slot result is accumulated and the loop continues.
(4) Scenario B concretely: `TensorProduct(P1, P1) * TensorProduct(|1>, |Omega>)`
normalizes to `0` because the second slot `P1 * |Omega>` gives `0`. -/
theorem tensor_slotwise_zero_short_circuit :
    (∀ (n : Nat) (e : Expr) (args : List Expr) (cs ds : List Expr),
        tpGuard (pop cs) (pket ds) = true →
        step (n + 1) (.core2 e args (pop cs) (pket ds))
          = step n (.slots e args (pket ds) (cs.zip ds) [])) ∧
    (∀ (n : Nat) (e : Expr) (args : List Expr) (rhs l0 r0 : Expr)
        (qs : List (Expr × Expr)) (acc : List Expr),
        step n (.op (mkMul [l0, r0])) = .ok (num 0) →
        step (n + 1) (.slots e args rhs ((l0, r0) :: qs) acc) = .ok (num 0)) ∧
    (∀ (n : Nat) (e : Expr) (args : List Expr) (rhs l0 r0 : Expr)
        (qs : List (Expr × Expr)) (acc : List Expr) (v : Expr),
        step n (.op (mkMul [l0, r0])) = .ok v → v ≠ num 0 →
        step (n + 1) (.slots e args rhs ((l0, r0) :: qs) acc)
          = step n (.slots e args rhs qs (v :: acc))) ∧
    apply_op 30 (mul [pop [presProj, presProj], pket [aket (.lbl 1), aket ALabel.null]])
      = .ok (num 0) := by
  refine ⟨fun n e args cs ds h => ?_, fun n e args rhs l0 r0 qs acc h0 => ?_,
    fun n e args rhs l0 r0 qs acc v hv hvne => ?_, by with_unfolding_all rfl⟩
  · simp only [step, outerUnfold, h, if_true]
    rfl
  · simp only [step, h0, bind_ok]
    rfl
  · have hvf : beqE v (num 0) = false := (beqE_false_iff _ _).mpr hvne
    simp only [step, hv, bind_ok, hvf]
    rfl

/-- C5 witness: instantiating the short-circuit conjunct at the concrete
zero slot `P1 * |Omega>` and the continuation conjunct at the non-zero
slot `P1 * |1>`. -/
theorem tensor_slotwise_zero_short_circuit_witness :
    step 11 (.slots (num 7) [] (pket [aket ALabel.null])
        [(presProj, aket ALabel.null)] []) = .ok (num 0) ∧
    step 11 (.slots (num 7) [] (pket [aket (.lbl 1)])
        [(presProj, aket (.lbl 1)), (presProj, aket ALabel.null)] [])
      = step 10 (.slots (num 7) [] (pket [aket (.lbl 1)])
        [(presProj, aket ALabel.null)] [aket (.lbl 1)]) :=
  ⟨tensor_slotwise_zero_short_circuit.2.1 10 (num 7) [] (pket [aket ALabel.null])
      presProj (aket ALabel.null) [] [] (by with_unfolding_all rfl),
   tensor_slotwise_zero_short_circuit.2.2.1 10 (num 7) [] (pket [aket (.lbl 1)])
      presProj (aket (.lbl 1)) [(presProj, aket ALabel.null)] [] (aket (.lbl 1))
      (by with_unfolding_all rfl) (by decide)⟩


/-- C8: for an adjacent non-commuting pair `(lhs, rhs)` reached by
dispatch, the interaction rules are tried in the fixed priority order of
apply_op.py lines 163-198, first success winning:
(1) a normal return of `lhs._apply_operator(rhs)` wins outright
(including a returned `None`, which makes the pair non-interacting);
(2) `rhs._apply_from_right_to(lhs)` is consulted only when the first
capability raised (was not applicable);
(3) if both raised and lhs is a Bra while rhs is a Ket, an `InnerProduct`
is constructed and reduced;
(4) if both raised and the pair is not Bra-Ket, the pair does not
interact; and
(5) a non-interacting two-factor product is returned unchanged. -/
theorem dispatch_priority_order :
    (∀ lhs rhs r, applyOperator lhs rhs = .ok (.ret r) →
        dispatchPair lhs rhs = .ok r) ∧
    (∀ lhs rhs r, applyOperator lhs rhs = .ok .notimpl →
        applyFromRightTo rhs lhs = .ok (.ret r) → dispatchPair lhs rhs = .ok r) ∧
    (∀ lhs rhs, applyOperator lhs rhs = .ok .notimpl →
        applyFromRightTo rhs lhs = .ok .notimpl →
        isBraBase lhs = true → isKetBase rhs = true →
        dispatchPair lhs rhs = (ipDoit lhs rhs).map some) ∧
    (∀ lhs rhs, applyOperator lhs rhs = .ok .notimpl →
        applyFromRightTo rhs lhs = .ok .notimpl →
        (isBraBase lhs && isKetBase rhs) = false →
        dispatchPair lhs rhs = .ok none) ∧
    (∀ (n : Nat) (lhs rhs : Expr), dispatchPair lhs rhs = .ok none →
        isComm lhs = false → isComm rhs = false →
        (∀ b k, lhs ≠ pow b k) → (∀ k b, lhs ≠ outer k b) →
        tpGuard lhs rhs = false →
        step (n + 3) (.opMul (mul [lhs, rhs])) = .ok (mul [lhs, rhs])) := by
  refine ⟨fun lhs rhs r h1 => ?_, fun lhs rhs r h1 h2 => ?_,
    fun lhs rhs h1 h2 hb hk => ?_, fun lhs rhs h1 h2 hbk => ?_,
    fun n lhs rhs hdp hcl hcr hpow houter htp => ?_⟩
  · simp only [dispatchPair, h1, bind_ok]
  · simp only [dispatchPair, h1, h2, bind_ok]
  · simp only [dispatchPair, h1, h2, bind_ok, hb, hk, Bool.and_self, if_true]
    cases hip : ipDoit lhs rhs <;> rfl
  · simp only [dispatchPair, h1, h2, bind_ok, hbk]
    rfl
  · have h1 : step (n + 3) (.opMul (mul [lhs, rhs]))
        = step (n + 2) (.core1 (mul [lhs, rhs]) [] lhs rhs) := by
      simp only [step, List.length_cons, List.length_nil, List.reverse_cons,
        List.reverse_nil, List.nil_append, List.cons_append, hcl, hcr,
        Bool.or_self, Bool.false_eq_true, if_false]
      rfl
    have h2 : step (n + 2) (.core1 (mul [lhs, rhs]) [] lhs rhs)
        = step (n + 1) (.core2 (mul [lhs, rhs]) [] lhs rhs) := by
      cases lhs <;> first
        | exact absurd rfl (hpow _ _)
        | rfl
    have h3 : step (n + 1) (.core2 (mul [lhs, rhs]) [] lhs rhs) = .ok (mul [lhs, rhs]) := by
      have hnotouter : outerUnfold [] lhs = ([], lhs) := by
        unfold outerUnfold
        cases lhs <;> first
          | exact absurd rfl (houter _ _)
          | rfl
      simp only [step, hnotouter, htp, Bool.false_eq_true, if_false, hdp, bind_ok]
      rfl
    rw [h1, h2, h3]

/-- C8 witness: conjunct (1) at `PresenceProjection * ParticleKet(3)`
(the apply-to capability fires and its value is used), and conjunct (5)
at the non-interacting pair `(genOp 0, genOp 1)`. -/
theorem dispatch_priority_order_witness :
    dispatchPair presProj (aket (.lbl 3)) = .ok (some (aket (.lbl 3))) ∧
    step 3 (.opMul (mul [genOp 0, genOp 1])) = .ok (mul [genOp 0, genOp 1]) :=
  ⟨dispatch_priority_order.1 presProj (aket (.lbl 3)) (some (aket (.lbl 3))) rfl,
   dispatch_priority_order.2.2.2.2 0 (genOp 0) (genOp 1) rfl rfl rfl
     (fun _ _ h => Expr.noConfusion h) (fun _ _ h => Expr.noConfusion h) rfl⟩


theorem mkPow_presProj_neg (m : Int) (hm : m ≤ -1) :
    mkPow presProj (.i m) = pow presProj (.i m) := by
  have h0 : (m == 0) = false := by simpa using (by omega : m ≠ 0)
  have h1 : (m == 1) = false := by simpa using (by omega : m ≠ 1)
  simp only [mkPow, h0, h1, Bool.false_eq_true, if_false]
  rw [if_neg (by omega)]

/-- C2 (the claim is FALSE of the code): on the input
`PresenceProjection ** (-1-k) * ParticleKet(5)` -- a finite, syntactically
well-formed expression whose Power factor has a negative integer
exponent -- `apply_op` never terminates, for ANY amount of fuel: the
Pow-splitting stage checks only `is_Integer`, so each round applies one
projector and decrements the exponent, producing the same shape again
with exponent one lower, forever (in CPython: a `RecursionError`). -/
theorem apply_op_negative_pow_never_terminates :
    ∀ (n : Nat) (k : Nat),
      apply_op n (mul [pow presProj (.i (-1 - (k : Int))), aket (.lbl 5)])
        = .error .fuel := by
  have main : ∀ n : Nat, ∀ m : Int, m ≤ -1 →
      (step n (.op (mul [pow presProj (.i m), aket (.lbl 5)])) = .error .fuel) ∧
      (step n (.loop (mul [pow presProj (.i m), aket (.lbl 5)])) = .error .fuel) ∧
      (step n (.opMul (mul [pow presProj (.i m), aket (.lbl 5)])) = .error .fuel) ∧
      (step n (.core1 (mul [pow presProj (.i m), aket (.lbl 5)]) []
          (pow presProj (.i m)) (aket (.lbl 5))) = .error .fuel) ∧
      (step n (.core2 (mul [pow presProj (.i m), aket (.lbl 5)])
          [mkPow presProj (.i (m - 1))] presProj (aket (.lbl 5))) = .error .fuel) := by
    intro n
    induction n with
    | zero => intro m _; exact ⟨rfl, rfl, rfl, rfl, rfl⟩
    | succ n ih =>
      intro m hm
      obtain ⟨ihop, ihloop, ihopMul, ihcore1, ihcore2⟩ := ih m hm
      obtain ⟨ihop', _, _, _, _⟩ := ih (m - 1) (by omega)
      have hPc : isComm (pow presProj (.i m)) = false := rfl
      have hKc : isComm (aket (.lbl 5)) = false := rfl
      have hmaP : mulArgsOf (pow presProj (.i m)) = [pow presProj (.i m)] := rfl
      have hmaK : mulArgsOf (aket (.lbl 5)) = [aket (.lbl 5)] := rfl
      have haP : addArgsOf (pow presProj (.i m)) = [pow presProj (.i m)] := rfl
      have haK : addArgsOf (aket (.lbl 5)) = [aket (.lbl 5)] := rfl
      have hbase : beqE (baseExpOf (pow presProj (.i m))).1
          (baseExpOf (aket (.lbl 5))).1 = false := rfl
      have hmk : mkMul [pow presProj (.i m), aket (.lbl 5)]
          = mul [pow presProj (.i m), aket (.lbl 5)] :=
        mkMul_pair_nc _ _ hPc hKc hmaP hmaK hbase
      have hE0 : beqE (mul [pow presProj (.i m), aket (.lbl 5)]) (num 0) = false := rfl
      have hxP : expandE (pow presProj (.i m)) = .ok (pow presProj (.i m)) :=
        expandE_pow_fixed presProj (.i m) rfl (fun _ h => Expr.noConfusion h)
      have hxK : expandE (aket (.lbl 5)) = .ok (aket (.lbl 5)) := rfl
      have hE : expandE (mul [pow presProj (.i m), aket (.lbl 5)])
          = .ok (mul [pow presProj (.i m), aket (.lbl 5)]) := by
        rw [expandE_mul_eq, expandL_cons, hxP]
        simp only [bind_ok]
        rw [expandL_cons, hxK]
        simp only [bind_ok]
        rw [expandL_nil]
        simp only [bind_ok]
        rw [crossTerms_pair_noadd _ _ haP haK]
        simp only [List.map_cons, List.map_nil]
        rw [hmk]
        exact congrArg Except.ok (mkAdd_single _ rfl hE0 rfl rfl)
      refine ⟨?_, ?_, ?_, ?_, ?_⟩
      · rw [step_op_to_loop n _ _ hE0 hE, ihloop]
      · rw [step_loop_two n _ _ hPc hKc hmk, ihopMul]; rfl
      · rw [step_opMul_two n _ _ hPc hKc, ihcore1]
      · rw [step_core1_pow n _ [] presProj m (aket (.lbl 5)), List.nil_append, ihcore2]
      · rw [mkPow_presProj_neg (m - 1) (by omega)]
        have hPc' : isComm (pow presProj (.i (m - 1))) = false := rfl
        have hmaP' : mulArgsOf (pow presProj (.i (m - 1)))
            = [pow presProj (.i (m - 1))] := rfl
        have hbase' : beqE (baseExpOf (pow presProj (.i (m - 1)))).1
            (baseExpOf (aket (.lbl 5))).1 = false := rfl
        rw [step_core2_applied n _ _ [pow presProj (.i (m - 1))] presProj presProj
          (aket (.lbl 5)) (aket (.lbl 5)) rfl rfl rfl rfl rfl]
        rw [mkMul_single_nc _ hPc' hmaP',
          mkMul_pair_nc _ _ hPc' hKc hmaP' hmaK hbase']
        exact ihop'
  intro n k
  exact (main n (-1 - (k : Int)) (by omega)).1

/-- C4 (amended): an arity mismatch discovered mid-reduction aborts
normalization with the descriptive `ValueError` ONLY on the bra-ket
inner-product path: `ProductKet._eval_innerproduct` raises whenever the
`ProductBra` has a different number of components (product_state.py
lines 98-100), for every pair of component lists of unequal length; and
the error propagates out of `apply_op` uncaught (second conjunct, a
`FieldBra` of one component against a `FieldKet` of two).  The unequal-
arity guard of apply_op.py lines 132-136 itself raises nothing: see the
counterexample `arity_mismatch_operator_tp_silent`. -/
theorem arity_mismatch_bra_ket_raises :
    (∀ ks bs : List Expr, bs.length ≠ ks.length →
      eval_innerproduct (pket ks) (pbra bs) = .error (.msg
        "Cannot multiply a product ket that has a different number of components.")) ∧
    apply_op 10 (mul [pbra [abra (.lbl 0)], pket [aket (.lbl 0), aket (.lbl 1)]])
      = .error (.msg
        "Cannot multiply a product ket that has a different number of components.") := by
  constructor
  · intro ks bs h
    have hne : (bs.length != ks.length) = true := by simpa using h
    simp only [eval_innerproduct, hne, if_true]
  · with_unfolding_all rfl

/-- C4 witness: the length-check clause of `arity_mismatch_bra_ket_raises`
fires at the concrete mismatched pair `FieldKet()` / `FieldBra(ParticleBra(0))`. -/
theorem arity_mismatch_bra_ket_raises_witness :
    ([abra (.lbl 0)] : List Expr).length ≠ ([] : List Expr).length ∧
    eval_innerproduct (pket []) (pbra [abra (.lbl 0)]) = .error (.msg
      "Cannot multiply a product ket that has a different number of components.") :=
  ⟨by decide, arity_mismatch_bra_ket_raises.1 [] [abra (.lbl 0)] (by decide)⟩

/-- C7: `Power(ParticleSwap(i, j), 2) * s` normalizes to `s` unchanged for
EVERY basis product state `s = FieldKet(ParticleKet(l1), ..., ParticleKet(lm))`
with enough components (`i, j < m`, `i ≠ j`) and any extra fuel: the
power-splitting rule replaces the square by
`ParticleSwap(i, j) * (ParticleSwap(i, j) * s)`, and the two successive
component swaps undo each other (the swap's involution property), so the
state returns unchanged. -/
theorem swap_squared_acts_as_identity (n : Nat) (ls : List ALabel) (i j : Nat)
    (hij : i ≠ j) (hi : i < ls.length) (hj : j < ls.length) :
    apply_op (n + 12) (mul [pow (pswap i j) (.i 2), pket (ls.map aket)])
      = .ok (pket (ls.map aket)) := by
  have hi1 : i < ((ls.set i ls[j]).set j ls[i]).length := by simpa using hi
  have hj1 : j < ((ls.set i ls[j]).set j ls[i]).length := by simpa using hj
  have h1j : ((ls.set i ls[j]).set j ls[i])[j] = ls[i] := List.getElem_set_self ..
  have h1i : ((ls.set i ls[j]).set j ls[i])[i] = ls[j] := by
    rw [List.getElem_set_ne (Ne.symm hij), List.getElem_set_self ..]
  have hdouble : ((((ls.set i ls[j]).set j ls[i]).set i
        (((ls.set i ls[j]).set j ls[i])[j])).set j
        (((ls.set i ls[j]).set j ls[i])[i])) = ls := by
    rw [h1j, h1i, List.set_comm _ _ _ (Ne.symm hij)]
    simp only [List.set_set]
    rw [list_set_self ls i hi, list_set_self ls j hj]
  have hdp0 : dispatchPair (pswap i j) (pket (ls.map aket))
      = .ok (some (pket (((ls.set i ls[j]).set j ls[i]).map aket))) :=
    dispatch_swap_pket ls i j hi hj
  have hdp1 : dispatchPair (pswap i j)
        (pket ((((ls.set i ls[j]).set j ls[i])).map aket))
      = .ok (some (pket (ls.map aket))) := by
    rw [dispatch_swap_pket ((ls.set i ls[j]).set j ls[i]) i j hi1 hj1, hdouble]
  have hxpow : expandE (pow (pswap i j) (.i 2)) = .ok (pow (pswap i j) (.i 2)) :=
    expandE_pow_fixed _ _ rfl (fun _ h => Expr.noConfusion h)
  have hxk : expandE (pket (ls.map aket)) = .ok (pket (ls.map aket)) :=
    expandE_pket_map_aket ls
  have hxk1 : expandE (pket ((((ls.set i ls[j]).set j ls[i])).map aket))
      = .ok (pket ((((ls.set i ls[j]).set j ls[i])).map aket)) :=
    expandE_pket_map_aket ((ls.set i ls[j]).set j ls[i])
  have hmk0 : mkMul [pow (pswap i j) (.i 2), pket (ls.map aket)]
      = mul [pow (pswap i j) (.i 2), pket (ls.map aket)] :=
    mkMul_pair_nc _ _ rfl rfl rfl rfl rfl
  have hmk1 : mkMul [pswap i j, pket ((((ls.set i ls[j]).set j ls[i])).map aket)]
      = mul [pswap i j, pket ((((ls.set i ls[j]).set j ls[i])).map aket)] :=
    mkMul_pair_nc _ _ rfl rfl rfl rfl rfl
  have hE0 : expandE (mul [pow (pswap i j) (.i 2), pket (ls.map aket)])
      = .ok (mul [pow (pswap i j) (.i 2), pket (ls.map aket)]) :=
    expandE_mul_pair_fixed _ _ hxpow hxk rfl rfl hmk0 rfl rfl rfl
  have hE1 : expandE (mul [pswap i j, pket ((((ls.set i ls[j]).set j ls[i])).map aket)])
      = .ok (mul [pswap i j, pket ((((ls.set i ls[j]).set j ls[i])).map aket)]) :=
    expandE_mul_pair_fixed _ _ rfl hxk1 rfl rfl hmk1 rfl rfl rfl
  have hcpow : isComm (pow (pswap i j) (.i 2)) = false := rfl
  have hcsw : isComm (pswap i j) = false := rfl
  have hck : isComm (pket (ls.map aket)) = false := rfl
  have hck1 : isComm (pket ((((ls.set i ls[j]).set j ls[i])).map aket)) = false := rfl
  have hmak : mulArgsOf (pket (ls.map aket)) = [pket (ls.map aket)] := rfl
  have hmasw : mulArgsOf (pswap i j) = [pswap i j] := rfl
  have h0e0 : beqE (mul [pow (pswap i j) (.i 2), pket (ls.map aket)]) (num 0)
      = false := rfl
  have h0e1 : beqE (mul [pswap i j, pket ((((ls.set i ls[j]).set j ls[i])).map aket)])
      (num 0) = false := rfl
  have hop_ket : step (n + 2) (.op (pket (ls.map aket))) = .ok (pket (ls.map aket)) :=
    step_op_ket (n + 1) _ _ rfl hxk rfl
  have hcore2_1 : step (n + 3)
      (.core2 (mul [pswap i j, pket ((((ls.set i ls[j]).set j ls[i])).map aket)])
        [] (pswap i j) (pket ((((ls.set i ls[j]).set j ls[i])).map aket)))
      = .ok (pket (ls.map aket)) := by
    rw [step_core2_applied (n + 2) _ [] [] (pswap i j) (pswap i j)
      (pket ((((ls.set i ls[j]).set j ls[i])).map aket)) (pket (ls.map aket))
      rfl rfl hdp1 rfl rfl]
    rw [show mkMul ([] : List Expr) = num 1 from rfl, mkMul_one_nc _ hck hmak]
    exact hop_ket
  have hcore1_1 : step (n + 4)
      (.core1 (mul [pswap i j, pket ((((ls.set i ls[j]).set j ls[i])).map aket)])
        [] (pswap i j) (pket ((((ls.set i ls[j]).set j ls[i])).map aket)))
      = .ok (pket (ls.map aket)) := by
    rw [step_core1_swap (n + 3)]
    exact hcore2_1
  have hopMul1 : step (n + 5)
      (.opMul (mul [pswap i j, pket ((((ls.set i ls[j]).set j ls[i])).map aket)]))
      = .ok (pket (ls.map aket)) := by
    rw [step_opMul_two (n + 4) _ _ hcsw hck1]
    exact hcore1_1
  have hloop1 : step (n + 6)
      (.loop (mul [pswap i j, pket ((((ls.set i ls[j]).set j ls[i])).map aket)]))
      = .ok (pket (ls.map aket)) := by
    rw [step_loop_two (n + 5) _ _ hcsw hck1 hmk1, hopMul1]
    simp only [bind_ok]
    rw [show mkMul ([] : List Expr) = num 1 from rfl, mkMul_one_nc _ hck hmak]
    rw [show beqE (pket (ls.map aket))
      (mul [pswap i j, pket ((((ls.set i ls[j]).set j ls[i])).map aket)]) = false from rfl]
    simp only [Bool.false_eq_true, if_false]
    exact step_loop_pket (n + 4) _
  have hop1 : step (n + 7)
      (.op (mul [pswap i j, pket ((((ls.set i ls[j]).set j ls[i])).map aket)]))
      = .ok (pket (ls.map aket)) := by
    rw [step_op_to_loop (n + 6) _ _ h0e1 hE1]
    exact hloop1
  have hcore2_0 : step (n + 8)
      (.core2 (mul [pow (pswap i j) (.i 2), pket (ls.map aket)])
        [pswap i j] (pswap i j) (pket (ls.map aket)))
      = .ok (pket (ls.map aket)) := by
    rw [step_core2_applied (n + 7) _ [pswap i j] [pswap i j] (pswap i j) (pswap i j)
      (pket (ls.map aket)) (pket (((ls.set i ls[j]).set j ls[i]).map aket))
      rfl rfl hdp0 rfl rfl]
    rw [mkMul_single_nc _ hcsw hmasw, hmk1]
    exact hop1
  have hcore1_0 : step (n + 9)
      (.core1 (mul [pow (pswap i j) (.i 2), pket (ls.map aket)])
        [] (pow (pswap i j) (.i 2)) (pket (ls.map aket)))
      = .ok (pket (ls.map aket)) := by
    rw [step_core1_pow (n + 8) _ [] (pswap i j) 2 (pket (ls.map aket)),
      List.nil_append, show ((2 : Int) - 1) = 1 from rfl,
      show mkPow (pswap i j) (.i 1) = pswap i j from rfl]
    exact hcore2_0
  have hopMul0 : step (n + 10)
      (.opMul (mul [pow (pswap i j) (.i 2), pket (ls.map aket)]))
      = .ok (pket (ls.map aket)) := by
    rw [step_opMul_two (n + 9) _ _ hcpow hck]
    exact hcore1_0
  have hloop0 : step (n + 11)
      (.loop (mul [pow (pswap i j) (.i 2), pket (ls.map aket)]))
      = .ok (pket (ls.map aket)) := by
    rw [step_loop_two (n + 10) _ _ hcpow hck hmk0, hopMul0]
    simp only [bind_ok]
    rw [show mkMul ([] : List Expr) = num 1 from rfl, mkMul_one_nc _ hck hmak]
    rw [show beqE (pket (ls.map aket))
      (mul [pow (pswap i j) (.i 2), pket (ls.map aket)]) = false from rfl]
    simp only [Bool.false_eq_true, if_false]
    exact step_loop_pket (n + 9) _
  show step (n + 12) (.op (mul [pow (pswap i j) (.i 2), pket (ls.map aket)])) = _
  rw [step_op_to_loop (n + 11) _ _ h0e0 hE0]
  exact hloop0

/-- C6: for an `OuterProduct FieldKet(a...) x FieldBra(b...)` multiplied on
the right by a basis `FieldKet(c...)` whose inner product with the bra
reduces to the scalar `0`, normalization returns exactly `.ok (num 0)`:
the outer product is pulled apart, the bra and the ket go through the
slot-wise tensor-product branch, the zero slot short-circuits, and the
ket `FieldKet(a...)` never appears in the output (the output is the
literal scalar zero, whatever `a...` was). -/
theorem outer_product_zero_inner_short_circuit (n : Nat) (la lb lc : List ALabel)
    (heval : eval_innerproduct (pket (lc.map aket)) (pbra (lb.map abra))
      = .ok (some (num 0))) :
    apply_op (n + lb.length + 15)
      (mul [outer (pket (la.map aket)) (pbra (lb.map abra)), pket (lc.map aket)])
      = .ok (num 0) := by
  have hlen : ((lb.map abra).length != (lc.map aket).length) = false := by
    by_cases hx : ((lb.map abra).length != (lc.map aket).length) = true
    · exfalso
      simp only [eval_innerproduct, hx, if_true] at heval
      exact Except.noConfusion heval
    · simpa using hx
  have hloop : innerLoop (lc.map aket) (lb.map abra) = .ok (some (num 0)) := by
    have h2 := heval
    simp only [eval_innerproduct, hlen, Bool.false_eq_true, if_false] at h2
    exact h2
  have htp : tpGuard (pbra (lb.map abra)) (pket (lc.map aket)) = true := by
    simp only [tpGuard, tpArgsOf, Bool.and_eq_true, List.all_eq_true, beq_iff_eq]
    refine ⟨⟨⟨⟨rfl, ?_⟩, rfl⟩, ?_⟩, ?_⟩
    · intro x hx
      obtain ⟨l, _, rfl⟩ := List.mem_map.mp hx
      rfl
    · intro x hx
      obtain ⟨l, _, rfl⟩ := List.mem_map.mp hx
      rfl
    · simpa using hlen
  have hxo : expandE (outer (pket (la.map aket)) (pbra (lb.map abra)))
      = .ok (outer (pket (la.map aket)) (pbra (lb.map abra))) := by
    rw [expandE_outer_eq, expandE_pket_map_aket, expandE_pbra_map_abra]
    rfl
  have hco : isComm (outer (pket (la.map aket)) (pbra (lb.map abra))) = false := rfl
  have hck : isComm (pket (lc.map aket)) = false := rfl
  have hmk : mkMul [outer (pket (la.map aket)) (pbra (lb.map abra)),
        pket (lc.map aket)]
      = mul [outer (pket (la.map aket)) (pbra (lb.map abra)), pket (lc.map aket)] :=
    mkMul_pair_nc _ _ hco hck rfl rfl rfl
  have h0e : beqE (mul [outer (pket (la.map aket)) (pbra (lb.map abra)),
      pket (lc.map aket)]) (num 0) = false := rfl
  have hE : expandE (mul [outer (pket (la.map aket)) (pbra (lb.map abra)),
        pket (lc.map aket)])
      = .ok (mul [outer (pket (la.map aket)) (pbra (lb.map abra)),
        pket (lc.map aket)]) :=
    expandE_mul_pair_fixed _ _ hxo (expandE_pket_map_aket lc) rfl rfl hmk rfl rfl rfl
  have hmm00 : mkMul [mkMul [], num 0] = num 0 := by with_unfolding_all rfl
  show step (n + lb.length + 15)
    (.op (mul [outer (pket (la.map aket)) (pbra (lb.map abra)),
      pket (lc.map aket)])) = _
  obtain ⟨q, hq⟩ : ∃ q, n + lb.length + 15 = q + 6 := ⟨n + lb.length + 9, by omega⟩
  rw [hq]
  have hinner : step (q + 4)
      (.opMul (mul [outer (pket (la.map aket)) (pbra (lb.map abra)),
        pket (lc.map aket)]))
      = .ok (num 0) := by
    rw [step_opMul_two (q + 3) _ _ hco hck]
    rw [step_core1_outerNode (q + 2)]
    rw [step_core2_tp (q + 1) _ [] [pket (la.map aket)]
      (outer (pket (la.map aket)) (pbra (lb.map abra))) (pbra (lb.map abra))
      (pket (lc.map aket)) rfl htp]
    rw [show tpArgsOf (pbra (lb.map abra)) = lb.map abra from rfl,
      show tpArgsOf (pket (lc.map aket)) = lc.map aket from rfl]
    exact slots_of_innerLoop_zero lb lc (q + 1) _ _ _ _ (by omega) hloop
  rw [step_op_to_loop (q + 5) _ _ h0e hE]
  rw [step_loop_two (q + 4) _ _ hco hck hmk, hinner]
  simp only [bind_ok]
  rw [hmm00, show beqE (num 0)
    (mul [outer (pket (la.map aket)) (pbra (lb.map abra)), pket (lc.map aket)])
    = false from rfl]
  simp only [Bool.false_eq_true, if_false]
  exact step_loop_num (q + 3) 0

/-- C6 witness: the concrete Scenario D instance
`OuterProduct(FieldKet(ParticleKet(0)), FieldBra(ParticleBra(1))) * FieldKet(ParticleKet(2))`
with inner product `<ParticleBra(1)|ParticleKet(2)> = 0`. -/
theorem outer_product_zero_inner_short_circuit_witness :
    eval_innerproduct (pket ([ALabel.lbl 2].map aket)) (pbra ([ALabel.lbl 1].map abra))
      = .ok (some (num 0)) ∧
    apply_op 16 (mul [outer (pket ([ALabel.lbl 0].map aket))
        (pbra ([ALabel.lbl 1].map abra)), pket ([ALabel.lbl 2].map aket)])
      = .ok (num 0) :=
  ⟨by with_unfolding_all rfl,
   outer_product_zero_inner_short_circuit 0 [ALabel.lbl 0] [ALabel.lbl 1]
     [ALabel.lbl 2] (by with_unfolding_all rfl)⟩

/-- C7 witness: the identity action at the concrete state
`FieldKet(ParticleKet(0), ParticleKet(1))` with `ParticleSwap(0, 1)`
squared, and the hypotheses of `swap_squared_acts_as_identity` discharged
at those indices. -/
theorem swap_squared_acts_as_identity_witness :
    (0 : Nat) ≠ 1 ∧
    apply_op 12 (mul [pow (pswap 0 1) (.i 2),
        pket ([ALabel.lbl 0, ALabel.lbl 1].map aket)])
      = .ok (pket ([ALabel.lbl 0, ALabel.lbl 1].map aket)) :=
  ⟨by decide,
   swap_squared_acts_as_identity 0 [ALabel.lbl 0, ALabel.lbl 1] 0 1
     (by decide) (by decide) (by decide)⟩

/-- C4 counterexample to the claim as stated: the unequal-arity
`TensorProduct` pair `FieldOperator(PresenceProjection)` (arity 1) times
`FieldKet(ParticleKet(0), ParticleKet(1))` (arity 2) is reached by
pairwise dispatch, fails the equal-arity tensor-product guard, and
normalization returns the expression SILENTLY UNREDUCED with no error:
the `ValueError` of the spec is never raised outside the bra-ket
inner-product path. -/
theorem arity_mismatch_operator_tp_silent :
    apply_op 20 (mul [pop [presProj], pket [aket (.lbl 0), aket (.lbl 1)]])
      = .ok (mul [pop [presProj], pket [aket (.lbl 0), aket (.lbl 1)]]) := by
  with_unfolding_all rfl

/-- C1 (amended): `apply_op` is idempotent on terminal outputs only --
scalars and raw basis kets are fixed points (one engine step returns them
unchanged, at any fuel), but it is NOT idempotent on all well-formed
inputs: see `apply_op_not_idempotent_cex`. -/
theorem apply_op_idempotent_on_terminal :
    (∀ (n : Nat) (q : ℚ), apply_op (n + 1) (num q) = .ok (num q)) ∧
    (∀ (n : Nat) (ls : List ALabel),
      apply_op (n + 1) (pket (ls.map aket)) = .ok (pket (ls.map aket))) := by
  constructor
  · intro n q
    exact step_op_num n q
  · intro n ls
    exact step_op_ket n _ _ rfl (expandE_pket_map_aket ls) rfl

/-- C1 counterexample: `apply_op` is NOT idempotent.  On the well-formed
input `StepSymmetrizer(2) * FieldKet(ParticleKet(0), ParticleKet(1)) * GenOp0`
the first pass stops at the fixed point
`(2^(-1/2)*|01> + 2^(-1/2)*|10>) * GenOp0` -- a `Mul` whose `Add` factor
is NOT distributed over the trailing operator, because the while-loop of
apply_op.py lines 68-82 breaks as soon as `result == e` -- while a second
pass expands that `Mul` into the `Add` of two terms, a structurally
different expression.  The same fuel (40) is ample for both passes, so
this is a genuine difference of outputs, not a fuel artifact. -/
theorem apply_op_not_idempotent_cex :
    apply_op 40 (mul [stepSym 1 2, pket [aket (.lbl 0), aket (.lbl 1)], genOp 0])
      = .ok (mul [add [mul [rad 2 (-1), pket [aket (.lbl 0), aket (.lbl 1)]],
          mul [rad 2 (-1), pket [aket (.lbl 1), aket (.lbl 0)]]], genOp 0]) ∧
    apply_op 40 (mul [add [mul [rad 2 (-1), pket [aket (.lbl 0), aket (.lbl 1)]],
          mul [rad 2 (-1), pket [aket (.lbl 1), aket (.lbl 0)]]], genOp 0])
      = .ok (add [mul [rad 2 (-1), pket [aket (.lbl 0), aket (.lbl 1)], genOp 0],
          mul [rad 2 (-1), pket [aket (.lbl 1), aket (.lbl 0)], genOp 0]]) ∧
    (add [mul [rad 2 (-1), pket [aket (.lbl 0), aket (.lbl 1)], genOp 0],
          mul [rad 2 (-1), pket [aket (.lbl 1), aket (.lbl 0)], genOp 0]] : Expr)
      ≠ mul [add [mul [rad 2 (-1), pket [aket (.lbl 0), aket (.lbl 1)]],
          mul [rad 2 (-1), pket [aket (.lbl 1), aket (.lbl 0)]]], genOp 0] :=
  ⟨by with_unfolding_all rfl, by with_unfolding_all rfl,
   fun h => Expr.noConfusion h⟩

end Pb2q

